import Mathlib

set_option maxRecDepth 100000

/-
Verification of the SVG-to-PPTX export engine (crates pptm-pptx and
pptm-pipeline) against its natural-language specification.

Shallow embedding conventions used throughout this file:

* XML documents are represented by their `quick_xml` event streams
  (`XDoc = List XEvent`); the rewrite passes of `steps/finalize/` are
  event-loop programs in the source and are embedded as functions on
  event lists.  Attribute values carry the (unescaped) text, exactly
  what `attr.unescape_value()` yields in the source.
* Rust `f32` arithmetic is modelled by exact fractions (`Frac` below,
  interpreted into `ℚ` by `Frac.val`).  Every concrete input used in a
  theorem is chosen so that `f32` rounding cannot change any comparison
  outcome or any formatted digit.
* External libraries that are not part of this repository (the `image`
  decoder, the `base64` encoder, the filesystem, the raster renderer
  `resvg`) enter as explicit function parameters (oracles); the code of
  this repository that surrounds them is embedded faithfully.
* Rust `u32` arithmetic is `Nat` with an explicit `% 2 ^ 32` where the
  source can overflow.
-/

/-! ### Small string utilities (kernel-computable models of Rust string ops) -/

/-- Model of byte-wise lexicographic comparison of file names (Rust
`OsString` ordering; UTF-8 byte order coincides with scalar-value order). -/
def charListLt : List Char → List Char → Bool
  | [], [] => false
  | [], _ :: _ => true
  | _ :: _, [] => false
  | a :: as', b :: bs' => if a < b then true else if b < a then false else charListLt as' bs'

def strLtB (a b : String) : Bool := charListLt a.data b.data

/-- Model of Rust `str::contains` (substring test). -/
def rContainsB (hay needle : String) : Bool := decide (needle.data <:+: hay.data)

/-- Model of Rust `str::starts_with`. -/
def rStartsWith (s p : String) : Bool := p.data.isPrefixOf s.data

/-- Model of Rust `str::to_lowercase` / `eq_ignore_ascii_case` support
(character-wise lowering; identical on ASCII). -/
def lowerStr (s : String) : String := ⟨s.data.map Char.toLower⟩

/-- Model of Rust `str::replace` (replace all non-overlapping occurrences,
scanning left to right).  Structural recursion on a fuel bound (the fuel
`s.length` is always sufficient since every step consumes at least one
character). -/
def rustReplaceGo (pat rep : List Char) : Nat → List Char → List Char
  | 0, s => s
  | _ + 1, [] => []
  | fuel + 1, c :: rest =>
    if pat ≠ [] ∧ pat.isPrefixOf (c :: rest) then
      rep ++ rustReplaceGo pat rep fuel ((c :: rest).drop pat.length)
    else c :: rustReplaceGo pat rep fuel rest

def rustReplace (s pat rep : String) : String :=
  ⟨rustReplaceGo pat.data rep.data s.data.length s.data⟩

/-! ### Exact-fraction model of `f32` values

`Frac` stores a numerator and (denominator − 1), so the denominator
`dm + 1` is positive by construction and all operations are closed. -/

structure Frac where
  n : Int
  dm : Nat
deriving DecidableEq

def Frac.den (q : Frac) : Nat := q.dm + 1

/-- Interpretation into `ℚ`. -/
def Frac.val (q : Frac) : ℚ := (q.n : ℚ) / (q.den : ℚ)

def Frac.ofInt (k : Int) : Frac := ⟨k, 0⟩

def Frac.zero : Frac := Frac.ofInt 0

def Frac.add (a b : Frac) : Frac := ⟨a.n * b.den + b.n * a.den, a.den * b.den - 1⟩

def Frac.sub (a b : Frac) : Frac := ⟨a.n * b.den - b.n * a.den, a.den * b.den - 1⟩

def Frac.mul (a b : Frac) : Frac := ⟨a.n * b.n, a.den * b.den - 1⟩

/-- Division.  A zero divisor yields `0`; no claim in this file exercises
that branch (Rust `f32` would give an infinity there). -/
def Frac.div (a b : Frac) : Frac :=
  if b.n = 0 then ⟨0, 0⟩
  else if 0 ≤ b.n then ⟨a.n * b.den, a.den * b.n.natAbs - 1⟩
  else ⟨-(a.n * b.den), a.den * b.n.natAbs - 1⟩

def Frac.blt (a b : Frac) : Bool := a.n * b.den < b.n * a.den

def Frac.ble (a b : Frac) : Bool := a.n * b.den ≤ b.n * a.den

def Frac.beq (a b : Frac) : Bool := a.n * b.den == b.n * a.den

def Frac.fabs (a : Frac) : Frac := ⟨(a.n.natAbs : Int), a.dm⟩

def Frac.minF (a b : Frac) : Frac := if Frac.ble a b then a else b

def Frac.floor (a : Frac) : Int := Int.fdiv a.n a.den

/-! Interpretation lemmas for `Frac`. -/

theorem Frac.den_pos (q : Frac) : 0 < q.den := Nat.succ_pos _

theorem Frac.den_cast_pos (q : Frac) : (0 : ℚ) < (q.den : ℚ) := by
  exact_mod_cast q.den_pos

theorem Frac.den_cast_ne (q : Frac) : ((q.den : ℚ)) ≠ 0 := ne_of_gt q.den_cast_pos

theorem Frac.den_add (a b : Frac) : (Frac.add a b).den = a.den * b.den := by
  show (a.den * b.den - 1) + 1 = a.den * b.den
  exact Nat.succ_pred_eq_of_pos (Nat.mul_pos a.den_pos b.den_pos)

theorem Frac.den_sub (a b : Frac) : (Frac.sub a b).den = a.den * b.den := by
  show (a.den * b.den - 1) + 1 = a.den * b.den
  exact Nat.succ_pred_eq_of_pos (Nat.mul_pos a.den_pos b.den_pos)

theorem Frac.den_mul (a b : Frac) : (Frac.mul a b).den = a.den * b.den := by
  show (a.den * b.den - 1) + 1 = a.den * b.den
  exact Nat.succ_pred_eq_of_pos (Nat.mul_pos a.den_pos b.den_pos)

theorem Frac.val_ofInt (k : Int) : (Frac.ofInt k).val = (k : ℚ) := by
  unfold Frac.val Frac.ofInt Frac.den
  norm_num

theorem Frac.val_zero : Frac.zero.val = 0 := by
  unfold Frac.zero
  rw [Frac.val_ofInt]
  norm_num

theorem Frac.val_add (a b : Frac) : (Frac.add a b).val = a.val + b.val := by
  unfold Frac.val
  rw [Frac.den_add]
  show ((a.n * b.den + b.n * a.den : ℤ) : ℚ) / ((a.den * b.den : ℕ) : ℚ) = _
  rw [div_add_div _ _ a.den_cast_ne b.den_cast_ne]
  push_cast
  ring_nf

theorem Frac.val_sub (a b : Frac) : (Frac.sub a b).val = a.val - b.val := by
  unfold Frac.val
  rw [Frac.den_sub]
  show ((a.n * b.den - b.n * a.den : ℤ) : ℚ) / ((a.den * b.den : ℕ) : ℚ) = _
  rw [div_sub_div _ _ a.den_cast_ne b.den_cast_ne]
  push_cast
  ring_nf

theorem Frac.val_mul (a b : Frac) : (Frac.mul a b).val = a.val * b.val := by
  unfold Frac.val
  rw [Frac.den_mul]
  show ((a.n * b.n : ℤ) : ℚ) / ((a.den * b.den : ℕ) : ℚ) = _
  rw [div_mul_div_comm]
  push_cast
  ring_nf

theorem Frac.blt_iff (a b : Frac) : Frac.blt a b = true ↔ a.val < b.val := by
  unfold Frac.blt Frac.val
  rw [div_lt_div_iff a.den_cast_pos b.den_cast_pos, decide_eq_true_eq]
  constructor
  · intro h; exact_mod_cast h
  · intro h; exact_mod_cast h

theorem Frac.ble_iff (a b : Frac) : Frac.ble a b = true ↔ a.val ≤ b.val := by
  unfold Frac.ble Frac.val
  rw [div_le_div_iff a.den_cast_pos b.den_cast_pos, decide_eq_true_eq]
  constructor
  · intro h; exact_mod_cast h
  · intro h; exact_mod_cast h

theorem Frac.val_minF (a b : Frac) : (Frac.minF a b).val = min a.val b.val := by
  unfold Frac.minF
  by_cases h : Frac.ble a b = true
  · rw [if_pos h, min_eq_left ((Frac.ble_iff a b).mp h)]
  · rw [if_neg h]
    have hlt : ¬ a.val ≤ b.val := fun hc => h ((Frac.ble_iff a b).mpr hc)
    rw [min_eq_right (le_of_lt (lt_of_not_le hlt))]

/-! ### Decimal formatting and parsing

`fmt2` models Rust's `format!("{:.2}", v)` (round half to even at two
decimal places); `parseF` models `str::parse::<f32>()` idealised to exact
rationals (decimal forms only; scientific notation is not needed by any
input in this development). -/

def pad2 (m : Nat) : String := if m < 10 then "0" ++ toString m else toString m

def fmt2pos (m : Nat) : String := toString (m / 100) ++ "." ++ pad2 (m % 100)

def halfFrac : Frac := ⟨1, 1⟩

/-- Round half to even. -/
def Frac.rhe (q : Frac) : Int :=
  let fl := q.floor
  let fr := Frac.sub q (Frac.ofInt fl)
  if Frac.blt fr halfFrac then fl
  else if Frac.blt halfFrac fr then fl + 1
  else if fl % 2 == 0 then fl else fl + 1

def fmt2 (q : Frac) : String :=
  if q.n < 0 then "-" ++ fmt2pos (Frac.rhe (Frac.mul q.fabs (Frac.ofInt 100))).toNat
  else fmt2pos (Frac.rhe (Frac.mul q (Frac.ofInt 100))).toNat

def digitsToNat : List Char → Nat → Nat
  | [], acc => acc
  | c :: cs, acc => digitsToNat cs (acc * 10 + (c.toNat - 48))

def allDigits (l : List Char) : Bool := l.all (fun c => '0' ≤ c ∧ c ≤ '9')

/-- Splitting on a single separator character (kernel-computable model
of Rust `str::split(c)` for one-character separators). -/
def splitOnCharGo (sep : Char) : List Char → List Char → List (List Char)
  | [], acc => [acc.reverse]
  | c :: rest, acc =>
    if c = sep then acc.reverse :: splitOnCharGo sep rest []
    else splitOnCharGo sep rest (c :: acc)

def splitOnChar (sep : Char) (l : List Char) : List (List Char) := splitOnCharGo sep l []

/-- Parse a decimal literal `[+-]digits[.digits]` into an exact fraction. -/
def parseF (s : String) : Option Frac :=
  let l := s.data
  let (sgn, body) :=
    match l with
    | '-' :: rest => ((-1 : Int), rest)
    | '+' :: rest => ((1 : Int), rest)
    | _ => ((1 : Int), l)
  match splitOnChar '.' body with
  | [ipart] =>
    if ipart ≠ [] ∧ allDigits ipart then
      some ⟨sgn * (digitsToNat ipart 0 : Int), 0⟩
    else none
  | [ipart, fpart] =>
    if (ipart ≠ [] ∨ fpart ≠ []) ∧ allDigits ipart ∧ allDigits fpart then
      some ⟨sgn * (digitsToNat ipart 0 * 10 ^ fpart.length
                    + digitsToNat fpart 0 : Nat), 10 ^ fpart.length - 1⟩
    else none
  | _ => none

/-- Rust `value.parse().unwrap_or(0.0)`. -/
def parseOr0 (s : String) : Frac := (parseF s).getD Frac.zero

/-! ### XML event model -/

abbrev Attrs := List (String × String)

inductive XEvent where
  | startE : String → Attrs → XEvent
  | emptyE : String → Attrs → XEvent
  | endE : String → XEvent
  | textE : String → XEvent
deriving DecidableEq

abbrev XDoc := List XEvent

/-- Serialization of an event stream back to markup, modelling the
`quick_xml` writer (attribute values and text are entity-escaped). -/
def escapeXml (s : String) : String :=
  ⟨s.data.flatMap (fun c =>
    if c = '&' then "&amp;".data
    else if c = '<' then "&lt;".data
    else if c = '>' then "&gt;".data
    else if c = '"' then "&quot;".data
    else if c = '\'' then "&apos;".data
    else [c])⟩

def serializeAttrs (attrs : Attrs) : String :=
  String.join (attrs.map (fun kv => " " ++ kv.1 ++ "=\"" ++ escapeXml kv.2 ++ "\""))

def serializeEvent : XEvent → String
  | .startE n a => "<" ++ n ++ serializeAttrs a ++ ">"
  | .emptyE n a => "<" ++ n ++ serializeAttrs a ++ "/>"
  | .endE n => "</" ++ n ++ ">"
  | .textE s => escapeXml s

def serializeDoc (d : XDoc) : String := String.join (d.map serializeEvent)

instance instDecEqExcept {ε α : Type} [DecidableEq ε] [DecidableEq α] :
    DecidableEq (Except ε α)
  | .ok x, .ok y =>
    match decEq x y with
    | isTrue h => isTrue (congrArg Except.ok h)
    | isFalse h => isFalse (fun hc => h (Except.ok.inj hc))
  | .error x, .error y =>
    match decEq x y with
    | isTrue h => isTrue (congrArg Except.error h)
    | isFalse h => isFalse (fun hc => h (Except.error.inj hc))
  | .ok _, .error _ => isFalse (fun hc => Except.noConfusion hc)
  | .error _, .ok _ => isFalse (fun hc => Except.noConfusion hc)

/-! ### Compatibility validator (`validate_svg`, pptm-pptx/src/lib.rs) -/

/-- The fixed feature blacklist of `validate_svg`, in source order. -/
def blacklist : List String :=
  ["clipPath", "mask", "<style", "class=", "foreignObject", "textPath",
   "@font-face", "animate", "marker-end"]

/-- `validate_svg`: reject on the first blacklisted substring, in list
order; the Rust error message embeds the triggering feature, modelled
here by returning the feature itself. -/
def validate_svg (svg_content : String) : Except String Unit :=
  match blacklist.find? (fun f => rContainsB svg_content f) with
  | some f => Except.error f
  | none => Except.ok ()

/-! ### Helper lemmas about `List.find?` -/

theorem find?_split {α : Type} (p : α → Bool) :
    ∀ {l : List α} {a : α}, l.find? p = some a →
      ∃ l₁ l₂, l = l₁ ++ a :: l₂ ∧ (∀ x ∈ l₁, p x = false) ∧ p a = true := by
  intro l
  induction l with
  | nil => intro a h; simp [List.find?] at h
  | cons x xs ih =>
    intro a h
    by_cases hx : p x = true
    · rw [List.find?_cons_of_pos _ hx] at h
      cases h
      exact ⟨[], xs, rfl, by simp, hx⟩
    · rw [List.find?_cons_of_neg _ hx] at h
      obtain ⟨l₁, l₂, heq, h1, h2⟩ := ih h
      refine ⟨x :: l₁, l₂, by simp [heq], ?_, h2⟩
      intro y hy
      rcases List.mem_cons.mp hy with hy | hy
      · subst hy; exact Bool.eq_false_iff.mpr hx
      · exact h1 y hy

/-! ### Claim C10 -/

/-- Claim C10: the compatibility validator decides purely by substring
presence — it accepts a string exactly when none of the nine blacklisted
literals occurs anywhere in it (hence an occurrence inside an id,
attribute value, comment or text node also rejects), and a rejection
reports the first blacklist member, in list order, that occurs. -/
theorem c10_validator_substring_semantics (s : String) :
    (validate_svg s = Except.ok () ↔ ∀ f ∈ blacklist, ¬ (f.data <:+: s.data)) ∧
    (∀ f, validate_svg s = Except.error f →
      f ∈ blacklist ∧ (f.data <:+: s.data) ∧
      ∃ l₁ l₂, blacklist = l₁ ++ f :: l₂ ∧ ∀ g ∈ l₁, ¬ (g.data <:+: s.data)) := by
  unfold validate_svg
  cases hfind : blacklist.find? (fun f => rContainsB s f) with
  | none =>
    constructor
    · simp only [true_iff]
      intro f hf
      have := List.find?_eq_none.mp hfind f hf
      simpa [rContainsB] using this
    · intro f h
      simp at h
  | some f₀ =>
    constructor
    · constructor
      · intro h; simp at h
      · intro h
        exfalso
        have hmem : f₀ ∈ blacklist := List.mem_of_find?_eq_some hfind
        have hp : rContainsB s f₀ = true := List.find?_some hfind
        exact h f₀ hmem (by simpa [rContainsB] using hp)
    · intro f h
      have hf : f₀ = f := by
        simpa using h
      subst hf
      obtain ⟨l₁, l₂, heq, h1, h2⟩ := find?_split _ hfind
      refine ⟨List.mem_of_find?_eq_some hfind, by simpa [rContainsB] using h2,
        l₁, l₂, heq, ?_⟩
      intro g hg
      have := h1 g hg
      simpa [rContainsB] using this

/-- Witness for C10 at a concrete input: `"<svg><mask/></svg>"` is
rejected with feature `"mask"`, which is the first blacklist member
occurring in it. -/
theorem c10_witness :
    validate_svg "<svg><mask/></svg>" = Except.error "mask" ∧
    ("mask" ∈ blacklist ∧ ("mask".data <:+: "<svg><mask/></svg>".data) ∧
      ∃ l₁ l₂, blacklist = l₁ ++ "mask" :: l₂ ∧
        ∀ g ∈ l₁, ¬ (g.data <:+: "<svg><mask/></svg>".data)) := by
  have h : validate_svg "<svg><mask/></svg>" = Except.error "mask" := by decide
  exact ⟨h, (c10_validator_substring_semantics "<svg><mask/></svg>").2 "mask" h⟩

/-! ### Claim C4 -/

/-- A document styled through an inline style block (and a class
attribute). -/
def styleDoc : String := "<svg><style></style><rect class=\"a\" width=\"10\"/></svg>"

/-- The equivalent document with the styling expressed only through
presentation attributes, containing no blacklisted feature. -/
def presAttrDoc : String :=
  "<svg><rect fill=\"red\" stroke=\"blue\" font-size=\"12\" width=\"10\"/></svg>"

/-- Claim C4: the validator rejects every document containing a style
block and reports a blacklisted feature occurring in the document; it
accepts any document free of all nine blacklisted substrings — in
particular the concrete style-block document is rejected (reporting
`"<style"`) while its presentation-attribute equivalent is accepted. -/
theorem c4_style_block_rejected :
    (∀ s : String, ("<style".data <:+: s.data) →
      ∃ f, validate_svg s = Except.error f ∧ f ∈ blacklist ∧ (f.data <:+: s.data)) ∧
    (∀ s : String, (∀ f ∈ blacklist, ¬ (f.data <:+: s.data)) →
      validate_svg s = Except.ok ()) ∧
    validate_svg styleDoc = Except.error "<style" ∧
    validate_svg presAttrDoc = Except.ok () := by
  refine ⟨?_, ?_, by decide, by decide⟩
  · intro s hs
    cases hfind : blacklist.find? (fun f => rContainsB s f) with
    | none =>
      exfalso
      have := List.find?_eq_none.mp hfind "<style" (by decide)
      exact this (by simpa [rContainsB] using hs)
    | some f₀ =>
      refine ⟨f₀, ?_, List.mem_of_find?_eq_some hfind, ?_⟩
      · unfold validate_svg
        rw [hfind]
      · have hp : rContainsB s f₀ = true := List.find?_some hfind
        simpa [rContainsB] using hp
  · intro s hs
    unfold validate_svg
    cases hfind : blacklist.find? (fun f => rContainsB s f) with
    | none => rfl
    | some f₀ =>
      exfalso
      have hmem : f₀ ∈ blacklist := List.mem_of_find?_eq_some hfind
      have hp : rContainsB s f₀ = true := List.find?_some hfind
      exact hs f₀ hmem (by simpa [rContainsB] using hp)

/-- Witness for C4: the universal rejection part applied at the concrete
style-block document. -/
theorem c4_witness :
    ("<style".data <:+: styleDoc.data) ∧
    ∃ f, validate_svg styleDoc = Except.error f ∧ f ∈ blacklist ∧
      (f.data <:+: styleDoc.data) :=
  ⟨by decide, c4_style_block_rejected.1 styleDoc (by decide)⟩

/-! ### Rounded-rect-to-path pass (`steps/finalize/rect_to_path.rs`) -/

def isSpaceChar (c : Char) : Bool := c = ' ' ∨ c = '\t' ∨ c = '\n' ∨ c = '\r'

def trimChars (l : List Char) : List Char :=
  ((l.dropWhile isSpaceChar).reverse.dropWhile isSpaceChar).reverse

/-- Model of Rust `str::trim_end_matches` (repeatedly strip the suffix). -/
def stripSuffixAllGo (suf : List Char) : Nat → List Char → List Char
  | 0, s => s
  | fuel + 1, s =>
    if suf ≠ [] ∧ suf.isSuffixOf s then
      stripSuffixAllGo suf fuel (s.take (s.length - suf.length))
    else s

def stripSuffixAll (suf s : String) : String :=
  ⟨stripSuffixAllGo suf.data s.data.length s.data⟩

/-- `parse_float` of rect_to_path.rs: trim, strip the unit suffixes
`px`, `pt`, `em`, `%`, `rem` in that order, then parse (or 0). -/
def parse_float (s : String) : Frac :=
  let t : String := ⟨trimChars s.data⟩
  parseOr0 (stripSuffixAll "rem" (stripSuffixAll "%" (stripSuffixAll "em"
    (stripSuffixAll "pt" (stripSuffixAll "px" t)))))

structure RectGeom where
  x : Frac
  y : Frac
  width : Frac
  height : Frac
  rx : Frac
  ry : Frac
deriving DecidableEq

def rectZero : RectGeom :=
  ⟨Frac.zero, Frac.zero, Frac.zero, Frac.zero, Frac.zero, Frac.zero⟩

/-- The attribute-extraction loop of `convert_rect_to_path` (later
occurrences of a key overwrite earlier ones, as in the source loop). -/
def extractRectStep (g : RectGeom) (kv : String × String) : RectGeom :=
  if kv.1 = "x" then { g with x := parse_float kv.2 }
  else if kv.1 = "y" then { g with y := parse_float kv.2 }
  else if kv.1 = "width" then { g with width := parse_float kv.2 }
  else if kv.1 = "height" then { g with height := parse_float kv.2 }
  else if kv.1 = "rx" then { g with rx := parse_float kv.2 }
  else if kv.1 = "ry" then { g with ry := parse_float kv.2 }
  else g

def extractRect (attrs : Attrs) : RectGeom := attrs.foldl extractRectStep rectZero

/-- Radius mirroring: a radius given on only one of rx/ry is copied to
the other (source: `if rx == 0.0 && ry > 0.0 { rx = ry } else if ...`). -/
def mirrorRadii (rx ry : Frac) : Frac × Frac :=
  if Frac.beq rx Frac.zero ∧ Frac.blt Frac.zero ry then (ry, ry)
  else if Frac.beq ry Frac.zero ∧ Frac.blt Frac.zero rx then (rx, rx)
  else (rx, ry)

inductive PathCmd where
  | mv : Frac → Frac → PathCmd
  | hline : Frac → PathCmd
  | vline : Frac → PathCmd
  | arc : Frac → Frac → Frac → Frac → PathCmd
  | close : PathCmd
deriving DecidableEq

def renderCmd : PathCmd → String
  | .mv x y => "M" ++ fmt2 x ++ "," ++ fmt2 y
  | .hline x => "H" ++ fmt2 x
  | .vline y => "V" ++ fmt2 y
  | .arc rx ry x y => "A" ++ fmt2 rx ++ "," ++ fmt2 ry ++ " 0 0 1 " ++ fmt2 x ++ "," ++ fmt2 y
  | .close => "Z"

def joinSep (sep : String) : List String → String
  | [] => ""
  | [x] => x
  | x :: y :: xs => x ++ sep ++ joinSep sep (y :: xs)

def renderCmds (cmds : List PathCmd) : String :=
  joinSep " " (cmds.map renderCmd)

/-- The command sequence of `rect_to_rounded_path` (radii already
clamped): four straight edges and four quarter arcs, closed with Z. -/
def roundedRectCmds (x y w h rx ry : Frac) : List PathCmd :=
  let x1 := x.add rx
  let x2 := (x.add w).sub rx
  let y1 := y.add ry
  let y2 := (y.add h).sub ry
  [PathCmd.mv x1 y, PathCmd.hline x2, PathCmd.arc rx ry (x.add w) y1,
   PathCmd.vline y2, PathCmd.arc rx ry x2 (y.add h), PathCmd.hline x1,
   PathCmd.arc rx ry x y2, PathCmd.vline y1, PathCmd.arc rx ry x1 y, PathCmd.close]

/-- `rect_to_rounded_path`: clamp rx to width/2 and ry to height/2
(each axis separately), render with two decimals, then strip `".00"`
(source: `format!(...).replace(".00", "")`). -/
def rect_to_rounded_path (x y w h rx ry : Frac) : String :=
  let crx := rx.minF (w.div (Frac.ofInt 2))
  let cry := ry.minF (h.div (Frac.ofInt 2))
  rustReplace (renderCmds (roundedRectCmds x y w h crx cry)) ".00" ""

/-- Comparison definition following the spec's words for C5 only: the
radius clamped to half the *shorter* side (both axes alike). -/
def rect_to_rounded_path_shorter_side (x y w h rx ry : Frac) : String :=
  let c := (w.minF h).div (Frac.ofInt 2)
  rustReplace (renderCmds (roundedRectCmds x y w h (rx.minF c) (ry.minF c))) ".00" ""

def geoKeys : List String := ["x", "y", "width", "height", "rx", "ry"]

/-- `convert_rect_to_path`: returns the element (name, attributes);
unchanged when there is no positive radius or the size is invalid,
otherwise a `path` element whose `d` attribute comes first, followed by
all non-geometry attributes in their original order. -/
def convert_rect_to_path (name : String) (attrs : Attrs) : String × Attrs :=
  let g := extractRect attrs
  let (mrx, mry) := mirrorRadii g.rx g.ry
  if Frac.ble mrx Frac.zero ∧ Frac.ble mry Frac.zero then (name, attrs)
  else if Frac.ble g.width Frac.zero ∨ Frac.ble g.height Frac.zero then (name, attrs)
  else ("path", ("d", rect_to_rounded_path g.x g.y g.width g.height mrx mry) ::
    attrs.filter (fun kv => !(kv.1 ∈ geoKeys)))

/-- The event loop of `rect_to_path`.  The Boolean state is true while
skipping the children of a `<rect …>` start element: the source writes
the converted element as self-closing and discards everything up to the
matching `</rect>` (or end of input). -/
def rect_to_path_go : Bool → XDoc → XDoc
  | _, [] => []
  | true, e :: rest =>
    match e with
    | .endE n => if n = "rect" then rect_to_path_go false rest else rect_to_path_go true rest
    | _ => rect_to_path_go true rest
  | false, e :: rest =>
    match e with
    | .emptyE n a =>
      if n = "rect" then
        XEvent.emptyE (convert_rect_to_path n a).1 (convert_rect_to_path n a).2 ::
          rect_to_path_go false rest
      else e :: rect_to_path_go false rest
    | .startE n a =>
      if n = "rect" then
        XEvent.emptyE (convert_rect_to_path n a).1 (convert_rect_to_path n a).2 ::
          rect_to_path_go true rest
      else e :: rect_to_path_go false rest
    | _ => e :: rect_to_path_go false rest

def rect_to_path (d : XDoc) : XDoc := rect_to_path_go false d

/-- Endpoint trace of a command list (current point, subpath start),
interpreted in `ℚ`.  For this generator's axis-aligned quarter arcs the
x/y extremes of every arc are attained at its endpoints, so the
endpoint trace determines the path's bounding box. -/
def cmdPointsQ : (ℚ × ℚ) → (ℚ × ℚ) → List PathCmd → List (ℚ × ℚ)
  | _, _, [] => []
  | _, _, .mv x y :: r => (x.val, y.val) :: cmdPointsQ (x.val, y.val) (x.val, y.val) r
  | cur, sub, .hline x :: r => (x.val, cur.2) :: cmdPointsQ (x.val, cur.2) sub r
  | cur, sub, .vline y :: r => (cur.1, y.val) :: cmdPointsQ (cur.1, y.val) sub r
  | _, sub, .arc _ _ x y :: r => (x.val, y.val) :: cmdPointsQ (x.val, y.val) sub r
  | _, sub, .close :: r => sub :: cmdPointsQ sub sub r

def pathPointsQ (cmds : List PathCmd) : List (ℚ × ℚ) := cmdPointsQ (0, 0) (0, 0) cmds

theorem Frac.val_div (a b : Frac) (hb : b.n ≠ 0) : (a.div b).val = a.val / b.val := by
  have hna : 0 < b.n.natAbs := Int.natAbs_pos.mpr hb
  have hden : ((a.den * b.n.natAbs - 1) + 1 : ℕ) = a.den * b.n.natAbs :=
    Nat.succ_pred_eq_of_pos (Nat.mul_pos a.den_pos hna)
  have hbn : ((b.n : ℚ)) ≠ 0 := Int.cast_ne_zero.mpr hb
  have hbden : ((b.den : ℚ)) ≠ 0 := b.den_cast_ne
  have haden : ((a.den : ℚ)) ≠ 0 := a.den_cast_ne
  unfold Frac.div
  rw [if_neg hb]
  by_cases hpos : 0 ≤ b.n
  · rw [if_pos hpos]
    show ((a.n * b.den : ℤ) : ℚ) / (((a.den * b.n.natAbs - 1) + 1 : ℕ) : ℚ) = _
    rw [hden]
    have hnaq : (b.n.natAbs : ℚ) = (b.n : ℚ) := by
      have habs : ((b.n.natAbs : ℚ)) = |(b.n : ℚ)| := by rw [Int.cast_natAbs]; exact_mod_cast rfl
      rw [habs, abs_of_nonneg (by exact_mod_cast hpos)]
    unfold Frac.val
    push_cast [hnaq]
    field_simp
  · rw [if_neg hpos]
    show ((-(a.n * b.den) : ℤ) : ℚ) / (((a.den * b.n.natAbs - 1) + 1 : ℕ) : ℚ) = _
    rw [hden]
    have hnaq : (b.n.natAbs : ℚ) = -(b.n : ℚ) := by
      have habs : ((b.n.natAbs : ℚ)) = |(b.n : ℚ)| := by rw [Int.cast_natAbs]; exact_mod_cast rfl
      rw [habs, abs_of_neg (by exact_mod_cast lt_of_not_le hpos)]
    unfold Frac.val
    push_cast [hnaq]
    field_simp

theorem Frac.ble_eq_false (a b : Frac) (h : Frac.blt b a = true) : Frac.ble a b = false := by
  rw [Bool.eq_false_iff]
  intro hc
  have h1 := (Frac.blt_iff b a).mp h
  have h2 := (Frac.ble_iff a b).mp hc
  linarith

/-- The rect of the C5 counterexample: width 100, height 10, `rx="20"`
(mirrored to ry), one non-geometry attribute. -/
def c5Attrs : Attrs :=
  [("x", "0"), ("y", "0"), ("width", "100"), ("height", "10"), ("rx", "20"), ("fill", "red")]

/-- Claim C5 counterexample: the code clamps each radius to half of its
own axis (rx to width/2, ry to height/2), not to half the shorter side.
For the 100×10 rect with radius 20 the emitted path keeps `rx = 20`
(its arcs read `A20,5`), whereas clamping to half the shorter side
(as the claim states) would give `A5,5` arcs — the two differ. -/
theorem c5_counterexample :
    convert_rect_to_path "rect" c5Attrs =
      ("path",
        [("d", "M20,0 H80 A20,5 0 0 1 100,5 V5 A20,5 0 0 1 80,10 H20 A20,5 0 0 1 0,5 V5 A20,5 0 0 1 20,0 Z"),
         ("fill", "red")]) ∧
    rect_to_rounded_path_shorter_side (Frac.ofInt 0) (Frac.ofInt 0) (Frac.ofInt 100)
        (Frac.ofInt 10) (Frac.ofInt 20) (Frac.ofInt 20) =
      "M5,0 H95 A5,5 0 0 1 100,5 V5 A5,5 0 0 1 95,10 H5 A5,5 0 0 1 0,5 V5 A5,5 0 0 1 5,0 Z" ∧
    rect_to_rounded_path (Frac.ofInt 0) (Frac.ofInt 0) (Frac.ofInt 100) (Frac.ofInt 10)
        (Frac.ofInt 20) (Frac.ofInt 20) ≠
      rect_to_rounded_path_shorter_side (Frac.ofInt 0) (Frac.ofInt 0) (Frac.ofInt 100)
        (Frac.ofInt 10) (Frac.ofInt 20) (Frac.ofInt 20) := by
  refine ⟨by decide, by decide, by decide⟩

/-- Claim C5 as amended: for a rect with positive width, height and
(mirrored) positive radii, `convert_rect_to_path` emits a `path` whose
`d` comes from `rect_to_rounded_path` and whose other attributes are the
original non-geometry attributes in order; the command list behind `d`
ends in Z and its endpoint trace closes; rx is clamped to width/2 and ry
to height/2 (each axis separately); and every endpoint lies inside the
rect's bounding box with all four sides attained (for these axis-aligned
quarter arcs the endpoints determine the path's bounding box, so the
path's bounding box equals the rect's). -/
theorem c5_amended (attrs : Attrs) (g : RectGeom) (mrx mry crx cry : Frac)
    (hg : extractRect attrs = g)
    (hm : mirrorRadii g.rx g.ry = (mrx, mry))
    (hrx : Frac.blt Frac.zero mrx = true) (hry : Frac.blt Frac.zero mry = true)
    (hw : Frac.blt Frac.zero g.width = true) (hh : Frac.blt Frac.zero g.height = true)
    (hcrx : crx = mrx.minF (g.width.div (Frac.ofInt 2)))
    (hcry : cry = mry.minF (g.height.div (Frac.ofInt 2))) :
    (convert_rect_to_path "rect" attrs =
      ("path", ("d", rect_to_rounded_path g.x g.y g.width g.height mrx mry) ::
        attrs.filter (fun kv => !(kv.1 ∈ geoKeys)))) ∧
    rect_to_rounded_path g.x g.y g.width g.height mrx mry =
      rustReplace (renderCmds (roundedRectCmds g.x g.y g.width g.height crx cry)) ".00" "" ∧
    (roundedRectCmds g.x g.y g.width g.height crx cry).getLast? = some PathCmd.close ∧
    (pathPointsQ (roundedRectCmds g.x g.y g.width g.height crx cry)).head? =
      (pathPointsQ (roundedRectCmds g.x g.y g.width g.height crx cry)).getLast? ∧
    crx.val = min mrx.val (g.width.val / 2) ∧
    cry.val = min mry.val (g.height.val / 2) ∧
    (∀ p ∈ pathPointsQ (roundedRectCmds g.x g.y g.width g.height crx cry),
      g.x.val ≤ p.1 ∧ p.1 ≤ g.x.val + g.width.val ∧
      g.y.val ≤ p.2 ∧ p.2 ≤ g.y.val + g.height.val) ∧
    (∃ p ∈ pathPointsQ (roundedRectCmds g.x g.y g.width g.height crx cry), p.1 = g.x.val) ∧
    (∃ p ∈ pathPointsQ (roundedRectCmds g.x g.y g.width g.height crx cry),
      p.1 = g.x.val + g.width.val) ∧
    (∃ p ∈ pathPointsQ (roundedRectCmds g.x g.y g.width g.height crx cry), p.2 = g.y.val) ∧
    (∃ p ∈ pathPointsQ (roundedRectCmds g.x g.y g.width g.height crx cry),
      p.2 = g.y.val + g.height.val) := by
  have hxrv : (0 : ℚ) < mrx.val := by
    have := (Frac.blt_iff _ _).mp hrx
    rwa [Frac.val_zero] at this
  have hyrv : (0 : ℚ) < mry.val := by
    have := (Frac.blt_iff _ _).mp hry
    rwa [Frac.val_zero] at this
  have hwv : (0 : ℚ) < g.width.val := by
    have := (Frac.blt_iff _ _).mp hw
    rwa [Frac.val_zero] at this
  have hhv : (0 : ℚ) < g.height.val := by
    have := (Frac.blt_iff _ _).mp hh
    rwa [Frac.val_zero] at this
  have htwo : (Frac.ofInt 2).n ≠ 0 := by decide
  have hcrxv : crx.val = min mrx.val (g.width.val / 2) := by
    rw [hcrx, Frac.val_minF, Frac.val_div _ _ htwo, Frac.val_ofInt]
    norm_num
  have hcryv : cry.val = min mry.val (g.height.val / 2) := by
    rw [hcry, Frac.val_minF, Frac.val_div _ _ htwo, Frac.val_ofInt]
    norm_num
  have hcrx_pos : 0 < crx.val := by
    rw [hcrxv]; exact lt_min hxrv (by linarith)
  have hcry_pos : 0 < cry.val := by
    rw [hcryv]; exact lt_min hyrv (by linarith)
  have hcrx_le : crx.val ≤ g.width.val / 2 := by
    rw [hcrxv]; exact min_le_right _ _
  have hcry_le : cry.val ≤ g.height.val / 2 := by
    rw [hcryv]; exact min_le_right _ _
  have hble1 : Frac.ble mrx Frac.zero = false := Frac.ble_eq_false _ _ hrx
  have hble2 : Frac.ble mry Frac.zero = false := Frac.ble_eq_false _ _ hry
  have hble3 : Frac.ble g.width Frac.zero = false := Frac.ble_eq_false _ _ hw
  have hble4 : Frac.ble g.height Frac.zero = false := Frac.ble_eq_false _ _ hh
  have hconv : convert_rect_to_path "rect" attrs =
      ("path", ("d", rect_to_rounded_path g.x g.y g.width g.height mrx mry) ::
        attrs.filter (fun kv => !(kv.1 ∈ geoKeys))) := by
    unfold convert_rect_to_path
    rw [hg]
    simp only [hm, hble1, hble2, hble3, hble4, Bool.false_eq_true, false_and, and_false,
      false_or, or_false, if_false, ite_false]
  have hpts : pathPointsQ (roundedRectCmds g.x g.y g.width g.height crx cry) =
      [(g.x.val + crx.val, g.y.val),
       (g.x.val + g.width.val - crx.val, g.y.val),
       (g.x.val + g.width.val, g.y.val + cry.val),
       (g.x.val + g.width.val, g.y.val + g.height.val - cry.val),
       (g.x.val + g.width.val - crx.val, g.y.val + g.height.val),
       (g.x.val + crx.val, g.y.val + g.height.val),
       (g.x.val, g.y.val + g.height.val - cry.val),
       (g.x.val, g.y.val + cry.val),
       (g.x.val + crx.val, g.y.val),
       (g.x.val + crx.val, g.y.val)] := by
    simp only [pathPointsQ, roundedRectCmds, cmdPointsQ, Frac.val_add, Frac.val_sub]
  refine ⟨hconv, ?_, rfl, rfl, hcrxv, hcryv, ?_, ?_, ?_, ?_, ?_⟩
  · simp only [rect_to_rounded_path]
    rw [← hcrx, ← hcry]
  · intro p hp
    rw [hpts] at hp
    simp only [List.mem_cons, List.not_mem_nil, or_false] at hp
    rcases hp with rfl | rfl | rfl | rfl | rfl | rfl | rfl | rfl | rfl | rfl <;>
      exact ⟨by dsimp only; linarith, by dsimp only; linarith,
             by dsimp only; linarith, by dsimp only; linarith⟩
  · exact ⟨(g.x.val, g.y.val + g.height.val - cry.val), by rw [hpts]; simp, rfl⟩
  · exact ⟨(g.x.val + g.width.val, g.y.val + cry.val), by rw [hpts]; simp, rfl⟩
  · exact ⟨(g.x.val + crx.val, g.y.val), by rw [hpts]; simp, rfl⟩
  · exact ⟨(g.x.val + g.width.val - crx.val, g.y.val + g.height.val), by rw [hpts]; simp, rfl⟩

/-- Witness for C5 at the concrete 100×10 rect with radius 20: the
amended theorem applied with all hypotheses discharged by computation. -/
theorem c5_witness :
    (convert_rect_to_path "rect" c5Attrs =
      ("path", ("d", rect_to_rounded_path (Frac.ofInt 0) (Frac.ofInt 0) (Frac.ofInt 100)
          (Frac.ofInt 10) (Frac.ofInt 20) (Frac.ofInt 20)) ::
        c5Attrs.filter (fun kv => !(kv.1 ∈ geoKeys)))) ∧
    (Frac.ofInt 20).val = min (Frac.ofInt 20).val ((Frac.ofInt 100).val / 2) ∧
    (Frac.mk 10 1).val = min (Frac.ofInt 20).val ((Frac.ofInt 10).val / 2) ∧
    (∀ p ∈ pathPointsQ (roundedRectCmds (Frac.ofInt 0) (Frac.ofInt 0) (Frac.ofInt 100)
        (Frac.ofInt 10) (Frac.ofInt 20) (Frac.mk 10 1)),
      (Frac.ofInt 0).val ≤ p.1 ∧ p.1 ≤ (Frac.ofInt 0).val + (Frac.ofInt 100).val ∧
      (Frac.ofInt 0).val ≤ p.2 ∧ p.2 ≤ (Frac.ofInt 0).val + (Frac.ofInt 10).val) := by
  have h := c5_amended c5Attrs
    ⟨Frac.ofInt 0, Frac.ofInt 0, Frac.ofInt 100, Frac.ofInt 10, Frac.ofInt 20, Frac.zero⟩
    (Frac.ofInt 20) (Frac.ofInt 20) (Frac.ofInt 20) (Frac.mk 10 1)
    (by decide) (by decide) (by decide) (by decide) (by decide) (by decide)
    (by decide) (by decide)
  exact ⟨h.1, h.2.2.2.2.1, h.2.2.2.2.2.1, h.2.2.2.2.2.2.1⟩

/-! ### Tspan-flattening pass (`steps/finalize/flatten_tspan.rs`) -/

structure TspanInfo where
  x : Option String
  y : Option String
  dx : Option String
  dy : Option String
  fill : Option String
  font_size : Option String
  font_weight : Option String
  font_family : Option String
  styleAttr : Option String
  text : String
deriving DecidableEq

def tspanEmpty : TspanInfo := ⟨none, none, none, none, none, none, none, none, none, ""⟩

/-- The attribute loop collecting `TspanInfo` from a `tspan` start tag. -/
def tspanStep (t : TspanInfo) (kv : String × String) : TspanInfo :=
  if kv.1 = "x" then { t with x := some kv.2 }
  else if kv.1 = "y" then { t with y := some kv.2 }
  else if kv.1 = "dx" then { t with dx := some kv.2 }
  else if kv.1 = "dy" then { t with dy := some kv.2 }
  else if kv.1 = "fill" then { t with fill := some kv.2 }
  else if kv.1 = "font-size" then { t with font_size := some kv.2 }
  else if kv.1 = "font-weight" then { t with font_weight := some kv.2 }
  else if kv.1 = "font-family" then { t with font_family := some kv.2 }
  else if kv.1 = "style" then { t with styleAttr := some kv.2 }
  else t

def parseTspan (attrs : Attrs) : TspanInfo := attrs.foldl tspanStep tspanEmpty

/-- `last_tspan.text = …` (the source assigns, it does not append). -/
def setLastText (s : String) : List TspanInfo → List TspanInfo
  | [] => []
  | [t] => [{ t with text := s }]
  | t :: t2 :: rest => t :: setLastText s (t2 :: rest)

def optAttr (k : String) : Option String → Attrs
  | some v => [(k, v)]
  | none => []

/-- `write_text_element`: parent attributes minus positions overridden by
the sub-span, then the sub-span's own attributes, around its text. -/
def write_text_element (text_attrs : Attrs) (t : TspanInfo) : List XEvent :=
  let kept := text_attrs.filter
    (fun kv => !(decide (kv.1 = "x" ∨ kv.1 = "y") && (t.x.isSome || t.y.isSome)))
  let finalAttrs := kept ++ optAttr "x" t.x ++ optAttr "y" t.y ++ optAttr "fill" t.fill ++
    optAttr "font-size" t.font_size ++ optAttr "font-weight" t.font_weight ++
    optAttr "font-family" t.font_family ++ optAttr "style" t.styleAttr
  [XEvent.startE "text" finalAttrs, XEvent.textE t.text, XEvent.endE "text"]

/-- The event loop of `flatten_tspan`.  The state mirrors the source's
mutable `in_text`, `text_attrs`, `tspans`; note that the source arms for
`<text>` start/end tags are not guarded on `in_text`, that text content
is only captured while at least one sub-span has been collected, and
that any other event is dropped while inside a `text` element. -/
def flatten_go (in_text : Bool) (text_attrs : Attrs) (tspans : List TspanInfo) : XDoc → XDoc
  | [] => []
  | e :: rest =>
    match e with
    | .startE n a =>
      if n = "text" then flatten_go true a [] rest
      else if n = "tspan" ∧ in_text then
        flatten_go in_text text_attrs (tspans ++ [parseTspan a]) rest
      else if in_text then flatten_go in_text text_attrs tspans rest
      else e :: flatten_go in_text text_attrs tspans rest
    | .textE s =>
      if in_text ∧ tspans ≠ [] then
        flatten_go in_text text_attrs (setLastText s tspans) rest
      else if in_text then flatten_go in_text text_attrs tspans rest
      else e :: flatten_go in_text text_attrs tspans rest
    | .endE n =>
      if n = "text" then
        (if tspans ≠ [] then (tspans.map (write_text_element text_attrs)).join
         else [XEvent.startE "text" text_attrs, XEvent.endE "text"])
        ++ flatten_go false text_attrs tspans rest
      else if in_text then flatten_go in_text text_attrs tspans rest
      else e :: flatten_go in_text text_attrs tspans rest
    | .emptyE _ _ =>
      if in_text then flatten_go in_text text_attrs tspans rest
      else e :: flatten_go in_text text_attrs tspans rest

def flatten_tspan (d : XDoc) : XDoc := flatten_go false [] [] d

/-- The failing input for C3: a text element with no sub-spans. -/
def c3Input : XDoc :=
  [XEvent.startE "svg" [], XEvent.startE "text" [("x", "100"), ("y", "200")],
   XEvent.textE "Hello", XEvent.endE "text", XEvent.endE "svg"]

/-- Claim C3 evaluated on the failing input: a `text` element containing
zero sub-spans keeps its attributes but LOSES its text content ("Hello"
is dropped), because the text-event arm only captures content once a
sub-span has been collected and the catch-all arm discards events while
`in_text` is set.  The crate's own unit test (`test_flatten_tspan_no_tspan`,
which asserts the output still contains "Hello") contradicts this
behaviour, so the code, not the claim, is wrong. -/
theorem c3_flatten_drops_text :
    flatten_tspan c3Input =
      [XEvent.startE "svg" [], XEvent.startE "text" [("x", "100"), ("y", "200")],
       XEvent.endE "text", XEvent.endE "svg"] ∧
    XEvent.textE "Hello" ∈ c3Input ∧
    ¬ XEvent.textE "Hello" ∈ flatten_tspan c3Input := by decide

/-! ### Image-aspect-fix pass (`steps/finalize/fix_image_aspect.rs`)

The external `image` crate decoder (dimensions of the decoded base64
payload) is the oracle `decode`. -/

structure ImgGeom where
  x : Frac
  y : Frac
  width : Frac
  height : Frac
  href : String
deriving DecidableEq

def imgZero : ImgGeom := ⟨Frac.zero, Frac.zero, Frac.zero, Frac.zero, ""⟩

/-- The attribute-extraction loop of `fix_image_element` (no unit
stripping here; plain `parse().unwrap_or(0.0)`). -/
def extractImgStep (g : ImgGeom) (kv : String × String) : ImgGeom :=
  if kv.1 = "x" then { g with x := parseOr0 kv.2 }
  else if kv.1 = "y" then { g with y := parseOr0 kv.2 }
  else if kv.1 = "width" then { g with width := parseOr0 kv.2 }
  else if kv.1 = "height" then { g with height := parseOr0 kv.2 }
  else if kv.1 = "href" ∨ kv.1 = "xlink:href" then { g with href := kv.2 }
  else g

def extractImg (attrs : Attrs) : ImgGeom := attrs.foldl extractImgStep imgZero

/-- `get_image_dimensions` / `get_image_dimensions_from_data_uri`: only
`data:` URIs are resolved; the URI must split on `,` into exactly two
parts, the head must mention `base64`, and the payload is decoded by the
external `image` crate (oracle `decode`). -/
def get_image_dimensions (decode : String → Option (Nat × Nat)) (href : String) :
    Option (Nat × Nat) :=
  if rStartsWith href "data:" then
    match splitOnChar ',' href.data with
    | [p0, p1] => if rContainsB ⟨p0⟩ "base64" then decode ⟨p1⟩ else none
    | _ => none
  else none

/-- The 1% ratio tolerance (`0.01`). -/
def tolFrac : Frac := ⟨1, 99⟩

/-- The letterbox computation of `fix_image_element`: `none` when the
element is left unchanged (no href, invalid box, unresolvable
dimensions, or ratio already within tolerance); otherwise the new
`(x, y, width, height)`. -/
def fixParams (decode : String → Option (Nat × Nat)) (attrs : Attrs) :
    Option (Frac × Frac × Frac × Frac) :=
  let g := extractImg attrs
  if g.href = "" ∨ Frac.ble g.width Frac.zero ∨ Frac.ble g.height Frac.zero then none
  else
    match get_image_dimensions decode g.href with
    | none => none
    | some (iw, ih) =>
      let imgr := Frac.div (Frac.ofInt (iw : Int)) (Frac.ofInt (ih : Int))
      let boxr := Frac.div g.width g.height
      if Frac.blt (Frac.fabs (Frac.sub imgr boxr)) tolFrac then none
      else if Frac.blt boxr imgr then
        some (g.x, g.y.add ((g.height.sub (g.width.div imgr)).div (Frac.ofInt 2)),
          g.width, g.width.div imgr)
      else
        some (g.x.add ((g.width.sub (g.height.mul imgr)).div (Frac.ofInt 2)), g.y,
          g.height.mul imgr, g.height)

/-- The attribute rewrite of `fix_image_element`: geometry attributes are
re-formatted with two decimals, everything else is kept. -/
def substGeo (nx ny nw nh : Frac) (kv : String × String) : String × String :=
  if kv.1 = "x" then (kv.1, fmt2 nx)
  else if kv.1 = "y" then (kv.1, fmt2 ny)
  else if kv.1 = "width" then (kv.1, fmt2 nw)
  else if kv.1 = "height" then (kv.1, fmt2 nh)
  else kv

def fix_image_element (decode : String → Option (Nat × Nat)) (attrs : Attrs) : Attrs :=
  match fixParams decode attrs with
  | none => attrs
  | some (nx, ny, nw, nh) => attrs.map (substGeo nx ny nw nh)

def fixEvent (decode : String → Option (Nat × Nat)) : XEvent → XEvent
  | .emptyE n a => if n = "image" then .emptyE n (fix_image_element decode a) else .emptyE n a
  | .startE n a => if n = "image" then .startE n (fix_image_element decode a) else .startE n a
  | e => e

def fix_image_aspect (decode : String → Option (Nat × Nat)) (d : XDoc) : XDoc :=
  d.map (fixEvent decode)

/-- Decoder oracle of the C7 counterexample: the payload `"AA"` stands
for a 7×1 raster image. -/
def c7decode : String → Option (Nat × Nat) := fun s => if s = "AA" then some (7, 1) else none

/-- A 7:1 image declared in a 1×1 unit box. -/
def c7Doc : XDoc :=
  [XEvent.emptyE "image"
    [("x", "0"), ("y", "0"), ("width", "1"), ("height", "1"),
     ("href", "data:image/png;base64,AA")]]

/-- Claim C7 counterexample: image-aspect-fix is not idempotent.  The
first application letterboxes the 7:1 image to height 1/7, which the
two-decimal formatting rounds to "0.14"; re-reading "0.14" puts the box
ratio (1/0.14 ≈ 7.14) outside the 1% tolerance of 7, so the second
application rewrites again (width becomes "0.98"). -/
theorem c7_counterexample :
    fix_image_aspect c7decode (fix_image_aspect c7decode c7Doc) ≠
      fix_image_aspect c7decode c7Doc ∧
    fix_image_aspect c7decode c7Doc =
      [XEvent.emptyE "image"
        [("x", "0.00"), ("y", "0.43"), ("width", "1.00"), ("height", "0.14"),
         ("href", "data:image/png;base64,AA")]] ∧
    fix_image_aspect c7decode (fix_image_aspect c7decode c7Doc) =
      [XEvent.emptyE "image"
        [("x", "0.01"), ("y", "0.43"), ("width", "0.98"), ("height", "0.14"),
         ("href", "data:image/png;base64,AA")]] := by
  refine ⟨by decide, by decide, by decide⟩

def hasKey (k : String) (l : Attrs) : Bool := l.any (fun kv => kv.1 == k)

theorem step_subst_w (nx ny nw nh : Frac) (g : ImgGeom) (kv : String × String) :
    (extractImgStep g (substGeo nx ny nw nh kv)).width =
      if kv.1 = "width" then parseOr0 (fmt2 nw) else g.width := by
  by_cases h1 : kv.1 = "x"
  · simp [substGeo, extractImgStep, h1]
  by_cases h2 : kv.1 = "y"
  · simp [substGeo, extractImgStep, h1, h2]
  by_cases h3 : kv.1 = "width"
  · simp [substGeo, extractImgStep, h1, h2, h3]
  by_cases h4 : kv.1 = "height"
  · simp [substGeo, extractImgStep, h1, h2, h3, h4]
  by_cases h5 : kv.1 = "href" ∨ kv.1 = "xlink:href"
  · simp [substGeo, extractImgStep, h1, h2, h3, h4, h5]
  · simp [substGeo, extractImgStep, h1, h2, h3, h4, h5]

theorem step_subst_h (nx ny nw nh : Frac) (g : ImgGeom) (kv : String × String) :
    (extractImgStep g (substGeo nx ny nw nh kv)).height =
      if kv.1 = "height" then parseOr0 (fmt2 nh) else g.height := by
  by_cases h1 : kv.1 = "x"
  · simp [substGeo, extractImgStep, h1]
  by_cases h2 : kv.1 = "y"
  · simp [substGeo, extractImgStep, h1, h2]
  by_cases h3 : kv.1 = "width"
  · simp [substGeo, extractImgStep, h1, h2, h3]
  by_cases h4 : kv.1 = "height"
  · simp [substGeo, extractImgStep, h1, h2, h3, h4]
  by_cases h5 : kv.1 = "href" ∨ kv.1 = "xlink:href"
  · simp [substGeo, extractImgStep, h1, h2, h3, h4, h5]
  · simp [substGeo, extractImgStep, h1, h2, h3, h4, h5]

theorem step_subst_href (nx ny nw nh : Frac) (g : ImgGeom) (kv : String × String) :
    (extractImgStep g (substGeo nx ny nw nh kv)).href = (extractImgStep g kv).href := by
  by_cases h1 : kv.1 = "x"
  · simp [substGeo, extractImgStep, h1]
  by_cases h2 : kv.1 = "y"
  · simp [substGeo, extractImgStep, h1, h2]
  by_cases h3 : kv.1 = "width"
  · simp [substGeo, extractImgStep, h1, h2, h3]
  by_cases h4 : kv.1 = "height"
  · simp [substGeo, extractImgStep, h1, h2, h3, h4]
  by_cases h5 : kv.1 = "href" ∨ kv.1 = "xlink:href"
  · simp [substGeo, extractImgStep, h1, h2, h3, h4, h5]
  · simp [substGeo, extractImgStep, h1, h2, h3, h4, h5]

theorem step_w_ne (g : ImgGeom) (kv : String × String) (h : kv.1 ≠ "width") :
    (extractImgStep g kv).width = g.width := by
  unfold extractImgStep
  split_ifs <;> simp_all

theorem step_h_ne (g : ImgGeom) (kv : String × String) (h : kv.1 ≠ "height") :
    (extractImgStep g kv).height = g.height := by
  unfold extractImgStep
  split_ifs <;> simp_all

theorem extract_foldl_href_congr :
    ∀ (l : Attrs) (g g' : ImgGeom), g.href = g'.href →
      (l.foldl extractImgStep g).href = (l.foldl extractImgStep g').href := by
  intro l
  induction l with
  | nil => intro g g' h; exact h
  | cons kv rest ih =>
    intro g g' h
    simp only [List.foldl_cons]
    apply ih
    unfold extractImgStep
    split_ifs <;> simp_all

theorem hasKey_cons (k : String) (kv : String × String) (l : Attrs) :
    hasKey k (kv :: l) = ((kv.1 == k) || hasKey k l) := by
  simp [hasKey]

theorem extract_w_subst (nx ny nw nh : Frac) :
    ∀ (l : Attrs) (g : ImgGeom),
      ((l.map (substGeo nx ny nw nh)).foldl extractImgStep g).width =
        if hasKey "width" l then parseOr0 (fmt2 nw) else g.width := by
  intro l
  induction l with
  | nil => intro g; simp [hasKey]
  | cons kv rest ih =>
    intro g
    simp only [List.map_cons, List.foldl_cons, hasKey_cons]
    rw [ih]
    have hs := step_subst_w nx ny nw nh g kv
    by_cases hk : kv.1 = "width"
    · rw [if_pos hk] at hs
      rcases Bool.eq_false_or_eq_true (hasKey "width" rest) with ha | ha <;>
        simp [hk, ha, hs]
    · rw [if_neg hk] at hs
      rcases Bool.eq_false_or_eq_true (hasKey "width" rest) with ha | ha <;>
        simp [hk, ha, hs]

theorem extract_h_subst (nx ny nw nh : Frac) :
    ∀ (l : Attrs) (g : ImgGeom),
      ((l.map (substGeo nx ny nw nh)).foldl extractImgStep g).height =
        if hasKey "height" l then parseOr0 (fmt2 nh) else g.height := by
  intro l
  induction l with
  | nil => intro g; simp [hasKey]
  | cons kv rest ih =>
    intro g
    simp only [List.map_cons, List.foldl_cons, hasKey_cons]
    rw [ih]
    have hs := step_subst_h nx ny nw nh g kv
    by_cases hk : kv.1 = "height"
    · rw [if_pos hk] at hs
      rcases Bool.eq_false_or_eq_true (hasKey "height" rest) with ha | ha <;>
        simp [hk, ha, hs]
    · rw [if_neg hk] at hs
      rcases Bool.eq_false_or_eq_true (hasKey "height" rest) with ha | ha <;>
        simp [hk, ha, hs]

theorem extract_href_subst (nx ny nw nh : Frac) :
    ∀ (l : Attrs) (g : ImgGeom),
      ((l.map (substGeo nx ny nw nh)).foldl extractImgStep g).href =
        (l.foldl extractImgStep g).href := by
  intro l
  induction l with
  | nil => intro g; rfl
  | cons kv rest ih =>
    intro g
    simp only [List.map_cons, List.foldl_cons]
    rw [ih]
    exact extract_foldl_href_congr rest _ _ (step_subst_href nx ny nw nh g kv)

theorem extract_w_nomem :
    ∀ (l : Attrs) (g : ImgGeom), hasKey "width" l = false →
      (l.foldl extractImgStep g).width = g.width := by
  intro l
  induction l with
  | nil => intro g _; rfl
  | cons kv rest ih =>
    intro g h
    simp only [hasKey, List.any_cons, Bool.or_eq_false_iff, beq_eq_false_iff_ne] at h
    simp only [List.foldl_cons]
    rw [ih _ (by simp [hasKey, h.2]), step_w_ne g kv h.1]

theorem extract_h_nomem :
    ∀ (l : Attrs) (g : ImgGeom), hasKey "height" l = false →
      (l.foldl extractImgStep g).height = g.height := by
  intro l
  induction l with
  | nil => intro g _; rfl
  | cons kv rest ih =>
    intro g h
    simp only [hasKey, List.any_cons, Bool.or_eq_false_iff, beq_eq_false_iff_ne] at h
    simp only [List.foldl_cons]
    rw [ih _ (by simp [hasKey, h.2]), step_h_ne g kv h.1]

/-- The rounding-stability condition under which a rewritten image
element is left alone by a second application: the two-decimal re-read
of the rewritten box is degenerate or its ratio is back within the 1%
tolerance of the intrinsic ratio. -/
def roundStableB (decode : String → Option (Nat × Nat)) (attrs : Attrs) : Bool :=
  match fixParams decode attrs, get_image_dimensions decode (extractImg attrs).href with
  | some (_, _, nw, nh), some (iw, ih) =>
    Frac.ble (parseOr0 (fmt2 nw)) Frac.zero || Frac.ble (parseOr0 (fmt2 nh)) Frac.zero ||
    Frac.blt (Frac.fabs (Frac.sub (Frac.div (Frac.ofInt (iw : Int)) (Frac.ofInt (ih : Int)))
      (Frac.div (parseOr0 (fmt2 nw)) (parseOr0 (fmt2 nh))))) tolFrac
  | _, _ => true

def eventRoundStableB (decode : String → Option (Nat × Nat)) : XEvent → Bool
  | .emptyE n a => !(n == "image") || roundStableB decode a
  | .startE n a => !(n == "image") || roundStableB decode a
  | _ => true

theorem fix_element_stable (decode : String → Option (Nat × Nat)) (attrs : Attrs)
    (h : roundStableB decode attrs = true) :
    fix_image_element decode (fix_image_element decode attrs) =
      fix_image_element decode attrs := by
  cases hfp : fixParams decode attrs with
  | none =>
    have hid : fix_image_element decode attrs = attrs := by
      unfold fix_image_element
      rw [hfp]
    rw [hid]
    exact hid
  | some p =>
    obtain ⟨nx, ny, nw, nh⟩ := p
    have hfix : fix_image_element decode attrs = attrs.map (substGeo nx ny nw nh) := by
      unfold fix_image_element
      rw [hfp]
    rw [hfix]
    suffices hnone : fixParams decode (attrs.map (substGeo nx ny nw nh)) = none by
      simp only [fix_image_element, hnone]
    have hhref2 : (extractImg (attrs.map (substGeo nx ny nw nh))).href =
        (extractImg attrs).href := extract_href_subst nx ny nw nh attrs imgZero
    by_cases haw : hasKey "width" attrs = true
    · by_cases hah : hasKey "height" attrs = true
      · have hw2 : (extractImg (attrs.map (substGeo nx ny nw nh))).width =
            parseOr0 (fmt2 nw) := by
          show ((attrs.map (substGeo nx ny nw nh)).foldl extractImgStep imgZero).width = _
          rw [extract_w_subst, if_pos haw]
        have hh2 : (extractImg (attrs.map (substGeo nx ny nw nh))).height =
            parseOr0 (fmt2 nh) := by
          show ((attrs.map (substGeo nx ny nw nh)).foldl extractImgStep imgZero).height = _
          rw [extract_h_subst, if_pos hah]
        cases hdims : get_image_dimensions decode (extractImg attrs).href with
        | none =>
          simp only [fixParams]
          by_cases hgate : (extractImg (attrs.map (substGeo nx ny nw nh))).href = "" ∨
              Frac.ble (extractImg (attrs.map (substGeo nx ny nw nh))).width Frac.zero = true ∨
              Frac.ble (extractImg (attrs.map (substGeo nx ny nw nh))).height Frac.zero = true
          · rw [if_pos hgate]
          · rw [if_neg hgate, hhref2, hdims]
        | some p2 =>
          obtain ⟨iw, ih⟩ := p2
          have h' : (Frac.ble (parseOr0 (fmt2 nw)) Frac.zero ||
              Frac.ble (parseOr0 (fmt2 nh)) Frac.zero ||
              Frac.blt (Frac.fabs (Frac.sub
                (Frac.div (Frac.ofInt (iw : Int)) (Frac.ofInt (ih : Int)))
                (Frac.div (parseOr0 (fmt2 nw)) (parseOr0 (fmt2 nh))))) tolFrac) = true := by
            have hcopy := h
            unfold roundStableB at hcopy
            rw [hfp, hdims] at hcopy
            exact hcopy
          simp only [Bool.or_eq_true] at h'
          simp only [fixParams]
          by_cases hgate : (extractImg (attrs.map (substGeo nx ny nw nh))).href = "" ∨
              Frac.ble (extractImg (attrs.map (substGeo nx ny nw nh))).width Frac.zero = true ∨
              Frac.ble (extractImg (attrs.map (substGeo nx ny nw nh))).height Frac.zero = true
          · rw [if_pos hgate]
          · rw [if_neg hgate, hhref2, hdims]
            have htol : Frac.blt (Frac.fabs (Frac.sub
                (Frac.div (Frac.ofInt (iw : Int)) (Frac.ofInt (ih : Int)))
                (Frac.div (extractImg (attrs.map (substGeo nx ny nw nh))).width
                  (extractImg (attrs.map (substGeo nx ny nw nh))).height))) tolFrac = true := by
              rw [hw2, hh2]
              rcases h' with (h1 | h2) | h3
              · exact absurd (Or.inr (Or.inl (by rw [hw2]; exact h1))) hgate
              · exact absurd (Or.inr (Or.inr (by rw [hh2]; exact h2))) hgate
              · exact h3
            simp only [htol, if_true]
      · have hh0 : (extractImg (attrs.map (substGeo nx ny nw nh))).height = Frac.zero := by
          show ((attrs.map (substGeo nx ny nw nh)).foldl extractImgStep imgZero).height = _
          rw [extract_h_subst, if_neg hah]
          rfl
        simp only [fixParams]
        rw [if_pos (Or.inr (Or.inr (by rw [hh0]; decide)))]
    · have hw0 : (extractImg (attrs.map (substGeo nx ny nw nh))).width = Frac.zero := by
        show ((attrs.map (substGeo nx ny nw nh)).foldl extractImgStep imgZero).width = _
        rw [extract_w_subst, if_neg haw]
        rfl
      simp only [fixParams]
      rw [if_pos (Or.inr (Or.inl (by rw [hw0]; decide)))]

/-- Claim C7 as amended: image-aspect-fix is idempotent on every
document all of whose image elements satisfy the rounding-stability
condition (in particular on all elements it leaves unchanged, and on all
rewritten elements whose two-decimal-formatted dimensions read back to a
ratio within the 1% tolerance).  The unrestricted claim is refuted by
`c7_counterexample`: the two-decimal formatting can push the ratio back
out of tolerance, and a second application rewrites again. -/
theorem c7_amended (decode : String → Option (Nat × Nat)) (d : XDoc)
    (h : ∀ e ∈ d, eventRoundStableB decode e = true) :
    fix_image_aspect decode (fix_image_aspect decode d) = fix_image_aspect decode d := by
  unfold fix_image_aspect
  rw [List.map_map]
  apply List.map_congr_left
  intro e he
  have hst := h e he
  cases e with
  | emptyE n a =>
    by_cases hn : n = "image"
    · have hr : roundStableB decode a = true := by
        simpa [eventRoundStableB, hn] using hst
      simp [fixEvent, hn, fix_element_stable decode a hr]
    · simp [fixEvent, hn]
  | startE n a =>
    by_cases hn : n = "image"
    · have hr : roundStableB decode a = true := by
        simpa [eventRoundStableB, hn] using hst
      simp [fixEvent, hn, fix_element_stable decode a hr]
    · simp [fixEvent, hn]
  | endE n => simp [fixEvent]
  | textE s => simp [fixEvent]

/-- Decoder oracle of the C7 witness: payload `"BB"` is a 2×1 image. -/
def c7decodeW : String → Option (Nat × Nat) := fun s => if s = "BB" then some (2, 1) else none

/-- A 2:1 image in a 100×100 box: the rewrite (height 50, re-centred) is
exact at two decimals, so the stability condition holds. -/
def c7DocW : XDoc :=
  [XEvent.emptyE "image"
    [("x", "0"), ("y", "0"), ("width", "100"), ("height", "100"),
     ("href", "data:image/png;base64,BB")]]

/-- Witness for C7: the amended idempotence applied to a concrete
rewritten-but-stable document. -/
theorem c7_witness :
    (∀ e ∈ c7DocW, eventRoundStableB c7decodeW e = true) ∧
    fix_image_aspect c7decodeW (fix_image_aspect c7decodeW c7DocW) =
      fix_image_aspect c7decodeW c7DocW := by
  have hst : ∀ e ∈ c7DocW, eventRoundStableB c7decodeW e = true := by decide
  exact ⟨hst, c7_amended c7decodeW c7DocW hst⟩

/-! ### Image-embedding pass (`steps/finalize/embed_images.rs`)

The filesystem read is the oracle `fsRead` (path → bytes), the external
base64 encoder is the oracle `b64`.  The html-entity decoding applied to
the path (external `html_escape` crate) is the identity on the
entity-free paths considered here and is modelled as such. -/

def hrefKeyB (k : String) : Bool := k == "href" || k == "xlink:href"

/-- `get_mime_type`: extension after the last dot, lower-cased. -/
def get_mime_type (filename : String) : String :=
  let ext := lowerStr ⟨(splitOnChar '.' filename.data).getLastD []⟩
  if ext = "png" then "image/png"
  else if ext = "jpg" ∨ ext = "jpeg" then "image/jpeg"
  else if ext = "gif" then "image/gif"
  else if ext = "webp" then "image/webp"
  else if ext = "svg" then "image/svg+xml"
  else "application/octet-stream"

/-- `Path::is_absolute` / `project_path.join(...)` on Unix paths. -/
def resolve_path (project_path p : String) : String :=
  if rStartsWith p "/" then p else project_path ++ "/" ++ p

/-- `embed_image_file`: read the file (oracle), base64-encode (oracle),
prefix with the inferred MIME type. -/
def embed_image_file (fsRead : String → Option (List Nat)) (b64 : List Nat → String)
    (project_path img_path : String) : Option String :=
  match fsRead (resolve_path project_path img_path) with
  | none => none
  | some data => some ("data:" ++ (get_mime_type img_path ++ (";base64," ++ b64 data)))

/-- `update_href_attribute`: rebuild from the given element, replacing
every attribute with the given key by the new value. -/
def update_href_attribute (attrs : Attrs) (key uri : String) : Attrs :=
  attrs.map (fun kv => if kv.1 = key then (key, uri) else kv)

/-- One iteration of the attribute loop in `embed_images`.  Crucially the
update is built from the ORIGINAL attribute list `orig` (`&e` in the
source), not from the accumulated one. -/
def embedStep (fsRead : String → Option (List Nat)) (b64 : List Nat → String)
    (project_path : String) (orig : Attrs) (acc : Attrs × Bool) (kv : String × String) :
    Attrs × Bool :=
  if hrefKeyB kv.1 && !(rStartsWith kv.2 "data:") then
    match embed_image_file fsRead b64 project_path kv.2 with
    | some uri => (update_href_attribute orig kv.1 uri, true)
    | none => acc
  else acc

def embedElementAttrs (fsRead : String → Option (List Nat)) (b64 : List Nat → String)
    (project_path : String) (attrs : Attrs) : Attrs :=
  let r := attrs.foldl (embedStep fsRead b64 project_path attrs) (attrs, false)
  if r.2 then r.1 else attrs

def embedEvent (fsRead : String → Option (List Nat)) (b64 : List Nat → String)
    (project_path : String) : XEvent → XEvent
  | .emptyE n a =>
    if n = "image" then .emptyE n (embedElementAttrs fsRead b64 project_path a)
    else .emptyE n a
  | .startE n a =>
    if n = "image" then .startE n (embedElementAttrs fsRead b64 project_path a)
    else .startE n a
  | e => e

def embed_images (fsRead : String → Option (List Nat)) (b64 : List Nat → String)
    (project_path : String) (d : XDoc) : XDoc :=
  d.map (embedEvent fsRead b64 project_path)

/-- An attribute the pass will embed: an href-like key, not already a
`data:` URI, whose referenced file is readable. -/
def embeddableB (fsRead : String → Option (List Nat)) (project_path : String)
    (kv : String × String) : Bool :=
  hrefKeyB kv.1 && !(rStartsWith kv.2 "data:") && (fsRead (resolve_path project_path kv.2)).isSome

theorem isPrefixOf_append (l r : List Char) : l.isPrefixOf (l ++ r) = true := by
  induction l with
  | nil => simp [List.isPrefixOf]
  | cons c cs ih => simp [List.isPrefixOf, ih]

theorem rStartsWith_append (p rest : String) : rStartsWith (p ++ rest) p = true := by
  unfold rStartsWith
  rw [String.data_append]
  exact isPrefixOf_append _ _

theorem embedStep_of_not_embeddable (fsRead : String → Option (List Nat))
    (b64 : List Nat → String) (P : String) (orig : Attrs) (acc : Attrs × Bool)
    (kv : String × String) (h : embeddableB fsRead P kv = false) :
    embedStep fsRead b64 P orig acc kv = acc := by
  unfold embedStep
  by_cases hg : (hrefKeyB kv.1 && !(rStartsWith kv.2 "data:")) = true
  · rw [if_pos hg]
    unfold embeddableB at h
    rw [Bool.and_eq_false_iff] at h
    rcases h with h | h
    · rw [hg] at h; simp at h
    · cases hr : fsRead (resolve_path P kv.2) with
      | none => unfold embed_image_file; rw [hr]
      | some data => rw [hr] at h; simp at h
  · rw [if_neg hg]

theorem embedStep_of_embeddable (fsRead : String → Option (List Nat))
    (b64 : List Nat → String) (P : String) (orig : Attrs) (acc : Attrs × Bool)
    (kv : String × String) (h : embeddableB fsRead P kv = true) :
    embedStep fsRead b64 P orig acc kv =
      (update_href_attribute orig kv.1 ((embed_image_file fsRead b64 P kv.2).getD ""), true) := by
  unfold embeddableB at h
  rw [Bool.and_eq_true, Bool.and_eq_true] at h
  unfold embedStep
  rw [if_pos (Bool.and_eq_true _ _ |>.mpr h.1)]
  cases hr : fsRead (resolve_path P kv.2) with
  | none => rw [hr] at h; simp at h
  | some data =>
    unfold embed_image_file
    rw [hr]
    simp

/-- Characterisation of the attribute loop: the last embeddable
attribute occurrence wins, and the rebuild starts from the original
attribute list each time. -/
theorem embedFold_char (fsRead : String → Option (List Nat)) (b64 : List Nat → String)
    (P : String) (orig : Attrs) :
    ∀ (l : Attrs) (acc : Attrs × Bool),
      l.foldl (embedStep fsRead b64 P orig) acc =
        match (l.filter (embeddableB fsRead P)).getLast? with
        | none => acc
        | some kv =>
          (update_href_attribute orig kv.1 ((embed_image_file fsRead b64 P kv.2).getD ""), true) := by
  intro l
  induction l using List.reverseRecOn with
  | nil => intro acc; rfl
  | append_singleton l kv ih =>
    intro acc
    rw [List.foldl_append, List.foldl_cons, List.foldl_nil, List.filter_append]
    by_cases he : embeddableB fsRead P kv = true
    · rw [embedStep_of_embeddable fsRead b64 P orig _ kv he]
      simp only [List.filter_cons, he, if_true, List.filter_nil]
      rw [List.getLast?_concat]
    · have he' : embeddableB fsRead P kv = false := Bool.eq_false_iff.mpr he
      rw [embedStep_of_not_embeddable fsRead b64 P orig _ kv he', ih]
      simp only [List.filter_cons, he', Bool.false_eq_true, if_false, List.filter_nil,
        List.append_nil]

theorem embedElementAttrs_eq (fsRead : String → Option (List Nat)) (b64 : List Nat → String)
    (P : String) (attrs : Attrs) :
    embedElementAttrs fsRead b64 P attrs =
      match (attrs.filter (embeddableB fsRead P)).getLast? with
      | none => attrs
      | some kv =>
        update_href_attribute attrs kv.1 ((embed_image_file fsRead b64 P kv.2).getD "") := by
  unfold embedElementAttrs
  rw [embedFold_char]
  cases hl : (attrs.filter (embeddableB fsRead P)).getLast? with
  | none => simp
  | some kv => simp

/-- Per-element idempotence of image embedding when the element carries
at most one embeddable reference occurrence. -/
theorem embedElement_idem (fsRead : String → Option (List Nat)) (b64 : List Nat → String)
    (P : String) (attrs : Attrs)
    (h : (attrs.filter (embeddableB fsRead P)).length ≤ 1) :
    embedElementAttrs fsRead b64 P (embedElementAttrs fsRead b64 P attrs) =
      embedElementAttrs fsRead b64 P attrs := by
  cases hl : (attrs.filter (embeddableB fsRead P)).getLast? with
  | none =>
    have hid : embedElementAttrs fsRead b64 P attrs = attrs := by
      rw [embedElementAttrs_eq, hl]
    rw [hid]
    exact hid
  | some kv =>
    have hfil : attrs.filter (embeddableB fsRead P) = [kv] := by
      cases hf : attrs.filter (embeddableB fsRead P) with
      | nil => rw [hf] at hl; simp at hl
      | cons a rest =>
        rw [hf] at h hl
        cases rest with
        | nil =>
          simp only [List.getLast?_singleton, Option.some.injEq] at hl
          rw [hl]
        | cons b r2 => simp at h
    have hemb : embeddableB fsRead P kv = true := by
      have hm : kv ∈ attrs.filter (embeddableB fsRead P) := by rw [hfil]; simp
      exact (List.mem_filter.mp hm).2
    obtain ⟨uri, huri, hushape⟩ :
        ∃ uri, embed_image_file fsRead b64 P kv.2 = some uri ∧
          ∃ t, uri = "data:" ++ t := by
      have hsome : (fsRead (resolve_path P kv.2)).isSome = true := by
        unfold embeddableB at hemb
        rw [Bool.and_eq_true] at hemb
        exact hemb.2
      cases hr : fsRead (resolve_path P kv.2) with
      | none => rw [hr] at hsome; simp at hsome
      | some data =>
        refine ⟨"data:" ++ (get_mime_type kv.2 ++ (";base64," ++ b64 data)), ?_, _, rfl⟩
        unfold embed_image_file
        rw [hr]
    have hfirst : embedElementAttrs fsRead b64 P attrs =
        update_href_attribute attrs kv.1 uri := by
      rw [embedElementAttrs_eq, hl]
      simp [huri]
    rw [hfirst]
    have hupd : ∀ kv' ∈ update_href_attribute attrs kv.1 uri,
        ¬ embeddableB fsRead P kv' = true := by
      intro kv' hkv'
      unfold update_href_attribute at hkv'
      obtain ⟨kv0, hkv0mem, hkv0eq⟩ := List.mem_map.mp hkv'
      by_cases hk : kv0.1 = kv.1
      · rw [if_pos hk] at hkv0eq
        rw [← hkv0eq]
        obtain ⟨t, ht⟩ := hushape
        have hstart : rStartsWith uri "data:" = true := by
          rw [ht]; exact rStartsWith_append _ _
        simp [embeddableB, hstart]
      · rw [if_neg hk] at hkv0eq
        rw [← hkv0eq]
        intro he
        have hm : kv0 ∈ attrs.filter (embeddableB fsRead P) :=
          List.mem_filter.mpr ⟨hkv0mem, he⟩
        rw [hfil] at hm
        simp at hm
        exact hk (by rw [hm])
    have hfil2 : (update_href_attribute attrs kv.1 uri).filter (embeddableB fsRead P) = [] := by
      rw [List.filter_eq_nil]
      intro a ha
      exact hupd a ha
    rw [embedElementAttrs_eq, hfil2]
    rfl

/-- At most one embeddable reference occurrence per image element. -/
def atMostOneEmbB (fsRead : String → Option (List Nat)) (P : String) : XEvent → Bool
  | .emptyE n a => !(n == "image") || decide ((a.filter (embeddableB fsRead P)).length ≤ 1)
  | .startE n a => !(n == "image") || decide ((a.filter (embeddableB fsRead P)).length ≤ 1)
  | _ => true

/-- Claim C8 as amended: an image element all of whose href/xlink:href
values are already `data:` URIs is left untouched, and the pass is
idempotent on every document whose image elements carry at most one
embeddable reference occurrence.  The unrestricted idempotence claim is
refuted by `c8_counterexample`: with both `href` and `xlink:href`
external and readable, the rebuild starts from the original element, the
first rewrite is lost, and a second application changes the output. -/
theorem c8_amended (fsRead : String → Option (List Nat)) (b64 : List Nat → String) (P : String) :
    (∀ attrs : Attrs,
      (∀ kv ∈ attrs, hrefKeyB kv.1 = true → rStartsWith kv.2 "data:" = true) →
      embedElementAttrs fsRead b64 P attrs = attrs) ∧
    (∀ d : XDoc, (∀ e ∈ d, atMostOneEmbB fsRead P e = true) →
      embed_images fsRead b64 P (embed_images fsRead b64 P d) =
        embed_images fsRead b64 P d) := by
  constructor
  · intro attrs hdata
    rw [embedElementAttrs_eq]
    have hfil : attrs.filter (embeddableB fsRead P) = [] := by
      rw [List.filter_eq_nil]
      intro kv hkv he
      unfold embeddableB at he
      rw [Bool.and_eq_true, Bool.and_eq_true] at he
      have hstart := hdata kv hkv he.1.1
      rw [hstart] at he
      simp at he
    rw [hfil]
    rfl
  · intro d h
    unfold embed_images
    rw [List.map_map]
    apply List.map_congr_left
    intro e he
    have hst := h e he
    cases e with
    | emptyE n a =>
      by_cases hn : n = "image"
      · have hlen : (a.filter (embeddableB fsRead P)).length ≤ 1 := by
          simpa [atMostOneEmbB, hn] using hst
        simp [embedEvent, hn, embedElement_idem fsRead b64 P a hlen]
      · simp [embedEvent, hn]
    | startE n a =>
      by_cases hn : n = "image"
      · have hlen : (a.filter (embeddableB fsRead P)).length ≤ 1 := by
          simpa [atMostOneEmbB, hn] using hst
        simp [embedEvent, hn, embedElement_idem fsRead b64 P a hlen]
      · simp [embedEvent, hn]
    | endE n => simp [embedEvent]
    | textE s => simp [embedEvent]

/-- Filesystem oracle for the C8 counterexample: both `a.png` and
`b.png` exist under project directory `P`. -/
def c8fs : String → Option (List Nat) := fun p =>
  if p = "P/a.png" then some [1] else if p = "P/b.png" then some [2] else none

/-- Base64 oracle for the C8 counterexample. -/
def c8b64 : List Nat → String := fun l =>
  if l = [1] then "AQ==" else if l = [2] then "Ag==" else ""

/-- An image element carrying both reference attributes, both external
and readable. -/
def c8Doc : XDoc := [XEvent.emptyE "image" [("href", "a.png"), ("xlink:href", "b.png")]]

/-- Claim C8 counterexample: image-embedding is not idempotent.  With
both `href` and `xlink:href` external, each update is rebuilt from the
original element, so the first application keeps `href="a.png"` while
embedding only `xlink:href`; the second application then embeds `href`
too, producing a different document. -/
theorem c8_counterexample :
    embed_images c8fs c8b64 "P" c8Doc =
      [XEvent.emptyE "image" [("href", "a.png"), ("xlink:href", "data:image/png;base64,Ag==")]] ∧
    embed_images c8fs c8b64 "P" (embed_images c8fs c8b64 "P" c8Doc) =
      [XEvent.emptyE "image"
        [("href", "data:image/png;base64,AQ=="), ("xlink:href", "data:image/png;base64,Ag==")]] ∧
    embed_images c8fs c8b64 "P" (embed_images c8fs c8b64 "P" c8Doc) ≠
      embed_images c8fs c8b64 "P" c8Doc := by
  refine ⟨by decide, by decide, by decide⟩

/-- A data-URI image and a single-reference external image. -/
def c8DocW : XDoc :=
  [XEvent.emptyE "image" [("href", "data:image/png;base64,AQ==")],
   XEvent.emptyE "image" [("href", "a.png")]]

/-- Witness for C8: the amended theorem applied concretely — the
data-URI element is untouched, and the two-element document (each image
with at most one embeddable reference) is a fixed point of the second
application. -/
theorem c8_witness :
    embedElementAttrs c8fs c8b64 "P" [("href", "data:image/png;base64,AQ==")] =
      [("href", "data:image/png;base64,AQ==")] ∧
    embed_images c8fs c8b64 "P" (embed_images c8fs c8b64 "P" c8DocW) =
      embed_images c8fs c8b64 "P" c8DocW := by
  refine ⟨(c8_amended c8fs c8b64 "P").1 _ (by decide), (c8_amended c8fs c8b64 "P").2 c8DocW (by decide)⟩

/-- Claim C9: an image element whose every external (non-`data:`)
reference is unreadable is left completely unmodified, and the pass
processes elements independently (splitting the document splits the
result), never failing: in this embedding `embed_images` is a total
function, matching the source, where a failed `embed_image_file` is
swallowed by the `if let Ok(...)` and the loop continues. -/
theorem c9_unreadable_nonfatal (fsRead : String → Option (List Nat))
    (b64 : List Nat → String) (P : String) :
    (∀ attrs : Attrs,
      (∀ kv ∈ attrs, hrefKeyB kv.1 = true → rStartsWith kv.2 "data:" = false →
        fsRead (resolve_path P kv.2) = none) →
      embedElementAttrs fsRead b64 P attrs = attrs) ∧
    (∀ (d₁ d₂ : XDoc) (e : XEvent),
      embed_images fsRead b64 P (d₁ ++ e :: d₂) =
        embed_images fsRead b64 P d₁ ++
          embedEvent fsRead b64 P e :: embed_images fsRead b64 P d₂) := by
  constructor
  · intro attrs hunread
    rw [embedElementAttrs_eq]
    have hfil : attrs.filter (embeddableB fsRead P) = [] := by
      rw [List.filter_eq_nil]
      intro kv hkv he
      unfold embeddableB at he
      rw [Bool.and_eq_true, Bool.and_eq_true] at he
      have hnone := hunread kv hkv he.1.1 (by
        have := he.1.2
        rw [Bool.not_eq_true'] at this
        exact this)
      rw [hnone] at he
      simp at he
    rw [hfil]
    rfl
  · intro d₁ d₂ e
    unfold embed_images
    rw [List.map_append, List.map_cons]

/-- Witness for C9: a missing file leaves the element untouched while
the sibling element in the same document is still embedded. -/
theorem c9_witness :
    embedElementAttrs c8fs c8b64 "P" [("href", "missing.png")] = [("href", "missing.png")] ∧
    embed_images c8fs c8b64 "P"
        ([XEvent.emptyE "image" [("href", "missing.png")]] ++
          XEvent.emptyE "image" [("href", "a.png")] :: []) =
      embed_images c8fs c8b64 "P" [XEvent.emptyE "image" [("href", "missing.png")]] ++
        embedEvent c8fs c8b64 "P" (XEvent.emptyE "image" [("href", "a.png")]) :: [] ∧
    embed_images c8fs c8b64 "P"
        [XEvent.emptyE "image" [("href", "missing.png")],
         XEvent.emptyE "image" [("href", "a.png")]] =
      [XEvent.emptyE "image" [("href", "missing.png")],
       XEvent.emptyE "image" [("href", "data:image/png;base64,AQ==")]] := by
  refine ⟨(c9_unreadable_nonfatal c8fs c8b64 "P").1 _ (by decide), ?_, by decide⟩
  have h := (c9_unreadable_nonfatal c8fs c8b64 "P").2
    [XEvent.emptyE "image" [("href", "missing.png")]] []
    (XEvent.emptyE "image" [("href", "a.png")])
  simpa using h

/-! ### Icon-embedding pass (`steps/finalize/embed_icons.rs`)

The icon catalog (`ICON_LIBRARY`, loaded once from the icon-asset
directory at process start) is the oracle `catalog`: icon name → the
`path` elements extracted from its file. -/

structure UseAttrs where
  icon : String
  x : Frac
  y : Frac
  width : Frac
  height : Frac
  fill : Option String
deriving DecidableEq

def useZero : UseAttrs := ⟨"", Frac.zero, Frac.zero, Frac.zero, Frac.zero, none⟩

def useStep (u : UseAttrs) (kv : String × String) : UseAttrs :=
  if kv.1 = "data-icon" then { u with icon := kv.2 }
  else if kv.1 = "x" then { u with x := parseOr0 kv.2 }
  else if kv.1 = "y" then { u with y := parseOr0 kv.2 }
  else if kv.1 = "width" then { u with width := parseOr0 kv.2 }
  else if kv.1 = "height" then { u with height := parseOr0 kv.2 }
  else if kv.1 = "fill" then { u with fill := some kv.2 }
  else u

def parseUseAttrs (attrs : Attrs) : UseAttrs := attrs.foldl useStep useZero

/-- Model of Rust's `{}` Display for `f32` as used in
`generate_icon_group`: integral values print without a decimal point;
non-integral values are approximated at two decimals (no claim in this
file depends on the non-integral case). -/
def fmtDisplay (q : Frac) : String :=
  if q.n % (q.den : Int) == 0 then toString (q.n / (q.den : Int)) else fmt2 q

/-- `generate_icon_group`: a `g` wrapper translated to the requested
position and scaled from the fixed base size 16, with the optional fill
applied to the group.  (The source then writes this markup through a
text event; the event stream records the raw group string.) -/
def generate_icon_group (u : UseAttrs) (paths : List String) : String :=
  "<g transform=\"translate(" ++ fmtDisplay u.x ++ ", " ++ fmtDisplay u.y ++ ") scale(" ++
    fmtDisplay (u.width.div (Frac.ofInt 16)) ++ ")\"" ++
  (match u.fill with
   | some f => " fill=\"" ++ f ++ "\""
   | none => "") ++
  ">" ++ String.join paths ++ "</g>"

def embed_icons (catalog : String → Option (List String)) (d : XDoc) : XDoc :=
  d.map (fun e =>
    match e with
    | .emptyE n a =>
      if n = "use" ∧ a.any (fun kv => kv.1 == "data-icon") then
        match catalog (parseUseAttrs a).icon with
        | some paths => .textE (generate_icon_group (parseUseAttrs a) paths)
        | none => .emptyE n a
      else .emptyE n a
    | e => e)

/-! ### The canonical pass composition and the slide assembler
(`load_slides`, pptm-pptx/src/lib.rs) -/

/-- Modelled from the spec: the canonical pass order of section 4.1
(rounded-rect-to-path, image-aspect-fix, image-embedding, icon-embedding,
tspan-flattening).  Missing from the code: no function of the repository
composes the passes — `finalize_project` only copies `svg_output` to
`svg_final` and `load_slides` applies no pass at all. -/
def canonicalPasses (decode : String → Option (Nat × Nat))
    (fsRead : String → Option (List Nat)) (b64 : List Nat → String) (project_path : String)
    (catalog : String → Option (List String)) (d : XDoc) : XDoc :=
  flatten_tspan (embed_icons catalog (embed_images fsRead b64 project_path
    (fix_image_aspect decode (rect_to_path d))))

inductive SlideContent where
  | Svg : String → SlideContent
  | Png : List Nat → SlideContent
deriving DecidableEq

structure Slide where
  number : Nat
  title : String
  content : SlideContent
  notes : Option String
deriving DecidableEq

/-- A project directory: the optional `svg_final` and `notes`
directories, each a list of (file name, file content) in directory
order. -/
structure ProjectFs where
  svg_final : Option (List (String × String))
  notes : Option (List (String × String))

/-- Split a file name at its last dot, provided a non-empty part
precedes it (Rust `Path::file_stem` / `Path::extension` semantics). -/
def afterLastDot : List Char → Option (List Char × List Char)
  | [] => none
  | c :: rest =>
    match afterLastDot rest with
    | some (b, a) => some (c :: b, a)
    | none => if c = '.' then some ([], rest) else none

def extOf (fname : String) : Option String :=
  match afterLastDot fname.data with
  | some (b, a) => if b = [] then none else some ⟨a⟩
  | none => none

def stemOf (fname : String) : String :=
  match afterLastDot fname.data with
  | some (b, _) => if b = [] then fname else ⟨b⟩
  | none => fname

/-- The discovery filter: extension equal to `svg` case-insensitively. -/
def isSvgFile (fname : String) : Bool :=
  match extOf fname with
  | some e => lowerStr e == "svg"
  | none => false

/-- Stable insertion sort by file name: the function computed by the
source's stable `sort_by_key(|e| e.file_name())`. -/
def insertByName (x : String × String) : List (String × String) → List (String × String)
  | [] => [x]
  | y :: ys => if strLtB y.1 x.1 then y :: insertByName x ys else x :: y :: ys

def sortByName : List (String × String) → List (String × String)
  | [] => []
  | x :: xs => insertByName x (sortByName xs)

def sortedSvgEntries (files : List (String × String)) : List (String × String) :=
  sortByName (files.filter (fun f => isSvgFile f.1))

def lookupFile (dir : List (String × String)) (name : String) : Option String :=
  (dir.find? (fun f => f.1 == name)).map Prod.snd

def firstExisting (dir : List (String × String)) : List String → Option String
  | [] => none
  | p :: ps =>
    match lookupFile dir p with
    | some content => some content
    | none => firstExisting dir ps

/-- `read_notes`: the fixed ordered set of file-name patterns, first
existing file wins. -/
def read_notes (notes_dir : List (String × String)) (slide_number : Nat)
    (slide_title : String) : Option String :=
  firstExisting notes_dir
    [pad2 slide_number ++ "_" ++ slide_title ++ ".md",
     toString slide_number ++ "_" ++ slide_title ++ ".md",
     pad2 slide_number ++ ".md",
     toString slide_number ++ ".md"]

/-- `if notes_dir.exists() { read_notes(...)? } else { None }`. -/
def slideNotes (notesDir : Option (List (String × String))) (n : Nat)
    (title : String) : Option String :=
  match notesDir with
  | some dir => read_notes dir n title
  | none => none

/-- The per-slide loop of `load_slides` over the sorted entries
(0-based index `i`, slide number `i + 1`): validate the raw markup; on
acceptance record it as vector content, on rejection rasterize the raw
markup (oracle `raster` for `svg_to_png`, whose failure is fatal). -/
def buildSlides (raster : String → Except String (List Nat))
    (notesDir : Option (List (String × String))) :
    Nat → List (String × String) → Except String (List Slide)
  | _, [] => Except.ok []
  | i, (fname, content) :: rest =>
    let title := stemOf fname
    let notes := slideNotes notesDir (i + 1) title
    match validate_svg content with
    | Except.ok _ =>
      match buildSlides raster notesDir (i + 1) rest with
      | Except.ok slides => Except.ok (⟨i + 1, title, SlideContent.Svg content, notes⟩ :: slides)
      | Except.error e => Except.error e
    | Except.error _ =>
      match raster content with
      | Except.ok png =>
        match buildSlides raster notesDir (i + 1) rest with
        | Except.ok slides => Except.ok (⟨i + 1, title, SlideContent.Png png, notes⟩ :: slides)
        | Except.error e => Except.error e
      | Except.error e => Except.error e

/-- `load_slides`: fatal error when `svg_final` does not exist;
otherwise the sorted, filtered entries are processed in order. -/
def load_slides (raster : String → Except String (List Nat)) (fs : ProjectFs) :
    Except String (List Slide) :=
  match fs.svg_final with
  | none => Except.error "svg_final missing"
  | some files => buildSlides raster fs.notes 0 (sortedSvgEntries files)

theorem buildSlides_spec (raster : String → Except String (List Nat))
    (notesDir : Option (List (String × String))) :
    ∀ (l : List (String × String)) (k : Nat) (slides : List Slide),
      buildSlides raster notesDir k l = Except.ok slides →
      slides.length = l.length ∧
      ∀ i (hi : i < slides.length) (hi' : i < l.length),
        (slides.get ⟨i, hi⟩).number = k + i + 1 ∧
        (slides.get ⟨i, hi⟩).title = stemOf (l.get ⟨i, hi'⟩).1 ∧
        ((validate_svg (l.get ⟨i, hi'⟩).2 = Except.ok () ∧
          (slides.get ⟨i, hi⟩).content = SlideContent.Svg (l.get ⟨i, hi'⟩).2) ∨
         (validate_svg (l.get ⟨i, hi'⟩).2 ≠ Except.ok () ∧
          ∃ png, raster (l.get ⟨i, hi'⟩).2 = Except.ok png ∧
            (slides.get ⟨i, hi⟩).content = SlideContent.Png png)) := by
  intro l
  induction l with
  | nil =>
    intro k slides h
    simp only [buildSlides] at h
    have hs : slides = [] := by
      cases h
      rfl
    subst hs
    exact ⟨rfl, fun i hi _ => absurd hi (by simp)⟩
  | cons f rest ih =>
    obtain ⟨fname, content⟩ := f
    intro k slides h
    simp only [buildSlides] at h
    cases hv : validate_svg content with
    | ok u =>
      cases u
      rw [hv] at h
      cases hrest : buildSlides raster notesDir (k + 1) rest with
      | ok s' =>
        rw [hrest] at h
        have hs : slides =
            ⟨k + 1, stemOf fname, SlideContent.Svg content,
              slideNotes notesDir (k + 1) (stemOf fname)⟩ :: s' := by
          cases h
          rfl
        subst hs
        obtain ⟨ihlen, ihprop⟩ := ih (k + 1) s' hrest
        refine ⟨by simp [ihlen], ?_⟩
        intro i hi hi'
        cases i with
        | zero =>
          refine ⟨by simp, by simp, Or.inl ⟨hv, by simp⟩⟩
        | succ j =>
          have hj : j < s'.length := by simpa using hi
          have hj' : j < rest.length := by simpa using hi'
          obtain ⟨hn, ht, hc⟩ := ihprop j hj hj'
          refine ⟨?_, ?_, ?_⟩
          · simp only [List.get_cons_succ]
            rw [hn]
            omega
          · simpa using ht
          · simpa using hc
      | error e =>
        rw [hrest] at h
        cases h
    | error e0 =>
      rw [hv] at h
      cases hr : raster content with
      | ok png =>
        rw [hr] at h
        cases hrest : buildSlides raster notesDir (k + 1) rest with
        | ok s' =>
          rw [hrest] at h
          have hs : slides =
              ⟨k + 1, stemOf fname, SlideContent.Png png,
                slideNotes notesDir (k + 1) (stemOf fname)⟩ :: s' := by
            cases h
            rfl
          subst hs
          obtain ⟨ihlen, ihprop⟩ := ih (k + 1) s' hrest
          refine ⟨by simp [ihlen], ?_⟩
          intro i hi hi'
          cases i with
          | zero =>
            refine ⟨by simp, by simp, Or.inr ⟨by simp [hv], png, hr, by simp⟩⟩
          | succ j =>
            have hj : j < s'.length := by simpa using hi
            have hj' : j < rest.length := by simpa using hi'
            obtain ⟨hn, ht, hc⟩ := ihprop j hj hj'
            refine ⟨?_, ?_, ?_⟩
            · simp only [List.get_cons_succ]
              rw [hn]
              omega
            · simpa using ht
            · simpa using hc
        | error e =>
          rw [hrest] at h
          cases h
      | error e =>
        rw [hr] at h
        cases h

/-- Claim C1 as amended: `load_slides` applies NO rewrite pass.  For a
project whose `svg_final` directory exists, the slides come from the
sorted svg entries in order, numbered from 1, titled by the file stem,
and each slide's content is the RAW file markup — recorded as vector
content when `validate_svg` accepts the raw markup, and as the
rasterization of the raw markup when it rejects. -/
theorem c1_amended (raster : String → Except String (List Nat)) (fs : ProjectFs)
    (files : List (String × String)) (slides : List Slide)
    (hdir : fs.svg_final = some files)
    (hok : load_slides raster fs = Except.ok slides) :
    slides.length = (sortedSvgEntries files).length ∧
    ∀ i (hi : i < slides.length) (hi' : i < (sortedSvgEntries files).length),
      (slides.get ⟨i, hi⟩).number = i + 1 ∧
      (slides.get ⟨i, hi⟩).title = stemOf ((sortedSvgEntries files).get ⟨i, hi'⟩).1 ∧
      ((validate_svg ((sortedSvgEntries files).get ⟨i, hi'⟩).2 = Except.ok () ∧
        (slides.get ⟨i, hi⟩).content =
          SlideContent.Svg ((sortedSvgEntries files).get ⟨i, hi'⟩).2) ∨
       (validate_svg ((sortedSvgEntries files).get ⟨i, hi'⟩).2 ≠ Except.ok () ∧
        ∃ png, raster ((sortedSvgEntries files).get ⟨i, hi'⟩).2 = Except.ok png ∧
          (slides.get ⟨i, hi⟩).content = SlideContent.Png png)) := by
  unfold load_slides at hok
  rw [hdir] at hok
  obtain ⟨hlen, hprop⟩ := buildSlides_spec raster fs.notes (sortedSvgEntries files) 0 slides hok
  refine ⟨hlen, ?_⟩
  intro i hi hi'
  obtain ⟨hn, ht, hc⟩ := hprop i hi hi'
  exact ⟨by rw [hn]; omega, ht, hc⟩

/-- The project of the C1 counterexample: one slide whose SVG holds a
rounded rectangle (so the canonical passes would change it). -/
def c1Svg : String := "<svg><rect width=\"10\" height=\"10\" rx=\"2\"/></svg>"

/-- The event form of `c1Svg`. -/
def c1Events : XDoc :=
  [XEvent.startE "svg" [],
   XEvent.emptyE "rect" [("width", "10"), ("height", "10"), ("rx", "2")],
   XEvent.endE "svg"]

def c1Fs : ProjectFs := ⟨some [("a.svg", c1Svg)], none⟩

def noRaster : String → Except String (List Nat) := fun _ => Except.error "raster"

def noDecode : String → Option (Nat × Nat) := fun _ => none

def noFsRead : String → Option (List Nat) := fun _ => none

def noB64 : List Nat → String := fun _ => ""

def noCatalog : String → Option (List String) := fun _ => none

/-- Claim C1 counterexample: `load_slides` records the RAW markup as the
slide's vector content, but the five canonical passes do not leave this
markup fixed (rounded-rect-to-path rewrites the rect into a path), so
the recorded content is NOT the transformed markup the claim requires.
`serializeDoc c1Events = c1Svg` ties the event form to the file content;
the raw markup passes validation, so the vector branch is the one at
issue. -/
theorem c1_counterexample :
    load_slides noRaster c1Fs =
      Except.ok [⟨1, "a", SlideContent.Svg c1Svg, none⟩] ∧
    serializeDoc c1Events = c1Svg ∧
    validate_svg c1Svg = Except.ok () ∧
    canonicalPasses noDecode noFsRead noB64 "P" noCatalog c1Events ≠ c1Events ∧
    serializeDoc (canonicalPasses noDecode noFsRead noB64 "P" noCatalog c1Events) ≠ c1Svg := by
  refine ⟨by decide, by decide, by decide, by decide, by decide⟩

def c1SlidesW : List Slide := [⟨1, "a", SlideContent.Svg c1Svg, none⟩]

/-- Witness for C1: the amended per-slide characterisation applied to
the concrete one-slide project. -/
theorem c1_witness :
    c1SlidesW.length = (sortedSvgEntries [("a.svg", c1Svg)]).length ∧
    ∀ i (hi : i < c1SlidesW.length)
      (hi' : i < (sortedSvgEntries [("a.svg", c1Svg)]).length),
      (c1SlidesW.get ⟨i, hi⟩).number = i + 1 ∧
      (c1SlidesW.get ⟨i, hi⟩).title =
        stemOf ((sortedSvgEntries [("a.svg", c1Svg)]).get ⟨i, hi'⟩).1 ∧
      ((validate_svg ((sortedSvgEntries [("a.svg", c1Svg)]).get ⟨i, hi'⟩).2 = Except.ok () ∧
        (c1SlidesW.get ⟨i, hi⟩).content =
          SlideContent.Svg ((sortedSvgEntries [("a.svg", c1Svg)]).get ⟨i, hi'⟩).2) ∨
       (validate_svg ((sortedSvgEntries [("a.svg", c1Svg)]).get ⟨i, hi'⟩).2 ≠ Except.ok () ∧
        ∃ png, noRaster ((sortedSvgEntries [("a.svg", c1Svg)]).get ⟨i, hi'⟩).2 = Except.ok png ∧
          (c1SlidesW.get ⟨i, hi⟩).content = SlideContent.Png png)) :=
  c1_amended noRaster c1Fs [("a.svg", c1Svg)] c1SlidesW rfl (by decide)

/-! ### Self-contained OOXML backend (`backend/native_ooxml.rs`) -/

structure PptxConfig where
  width : Nat
  height : Nat
  enable_transitions : Bool
  transition_type : Option String

/-- Rust `u32` multiplication (wraps modulo 2^32 in release builds;
panics in debug builds — either way the product is not the mathematical
one once it exceeds `u32::MAX`). -/
def u32mul (a b : Nat) : Nat := (a * b) % 4294967296

/-- The numbers written into `<p:sldSz cx=… cy=…/>`:
`config.width * 9525` and `config.height * 9525` as `u32`. -/
def presCanvas (config : PptxConfig) : Nat × Nat :=
  (u32mul config.width 9525, u32mul config.height 9525)

/-- One `<p:sldId>` line per slide: `id = 255 + i`, `r:id = rId(i+1)`
for `i` in `1..=slide_count`. -/
def sldIdLines (slide_count : Nat) : String :=
  String.join ((List.range slide_count).map (fun i =>
    "    <p:sldId id=\"" ++ toString (255 + (i + 1)) ++ "\" r:id=\"rId" ++
      toString ((i + 1) + 1) ++ "\"/>\n"))

def canvasTag (config : PptxConfig) : String :=
  "<p:sldSz cx=\"" ++ toString (presCanvas config).1 ++ "\" cy=\"" ++
    toString (presCanvas config).2 ++ "\"/>"

/-- `generate_presentation`: the full presentation part. -/
def generate_presentation (slide_count : Nat) (config : PptxConfig) : String :=
  "<?xml version=\"1.0\" encoding=\"UTF-8\" standalone=\"yes\"?>\n<p:presentation xmlns:a=\"http://schemas.openxmlformats.org/drawingml/2006/main\" xmlns:r=\"http://schemas.openxmlformats.org/officeDocument/2006/relationships\" xmlns:p=\"http://schemas.openxmlformats.org/presentationml/2006/main\">\n  <p:sldMasterIdLst>\n    <p:sldMasterId id=\"2147483648\" r:id=\"rId1\"/>\n  </p:sldMasterIdLst>\n  <p:sldIdLst>\n"
  ++ sldIdLines slide_count
  ++ "  </p:sldIdLst>\n  "
  ++ canvasTag config
  ++ "\n  <p:notesSz cx=\"6858000\" cy=\"9144000\"/>\n</p:presentation>"

/-- The zip entries written for slide number `k` inside the export loop:
the slide part and its relationships part always; the notes part only
when notes are present; the media part only for raster content. -/
def perSlideParts (k : Nat) (s : Slide) : List String :=
  ["ppt/slides/slide" ++ toString k ++ ".xml",
   "ppt/slides/_rels/slide" ++ toString k ++ ".xml.rels"]
  ++ (match s.notes with
      | some _ => ["ppt/notesSlides/notesSlide" ++ toString k ++ ".xml"]
      | none => [])
  ++ (match s.content with
      | SlideContent.Png _ => ["ppt/media/image" ++ toString k ++ ".png"]
      | SlideContent.Svg _ => [])

def slidePartsFrom : Nat → List Slide → List String
  | _, [] => []
  | k, s :: rest => perSlideParts k s ++ slidePartsFrom (k + 1) rest

/-- The full list of zip entry names written by `export`, in order. -/
def exportParts (slides : List Slide) : List String :=
  ["[Content_Types].xml", "_rels/.rels", "ppt/presentation.xml",
   "ppt/_rels/presentation.xml.rels"]
  ++ slidePartsFrom 1 slides
  ++ ["ppt/slideLayouts/slideLayout1.xml", "ppt/slideMasters/slideMaster1.xml"]

/-- The (Id, Target) pairs of `generate_root_rels`. -/
def generate_root_rels_entries : List (String × String) :=
  [("rId1", "ppt/presentation.xml")]

/-- The (Id, Target) pairs of `generate_presentation_rels`: the master,
then `rId(i+1) → slides/slide i.xml` for `i` in `1..=slide_count`. -/
def generate_presentation_rels_entries (slide_count : Nat) : List (String × String) :=
  ("rId1", "slideMasters/slideMaster1.xml") ::
  (List.range slide_count).map (fun i =>
    ("rId" ++ toString (i + 2), "slides/slide" ++ toString (i + 1) ++ ".xml"))

/-- The (Id, Target) pairs of `generate_slide_rels`: emitted
UNCONDITIONALLY for every slide — an image relationship, the layout,
and a notes relationship, whether or not those parts exist. -/
def generate_slide_rels_entries (slide_num : Nat) : List (String × String) :=
  [("rId1", "../media/image" ++ toString slide_num ++ ".png"),
   ("rId2", "../slideLayouts/slideLayout1.xml"),
   ("rId3", "../notesSlides/notesSlide" ++ toString slide_num ++ ".xml")]

/-- The Override part names of `generate_content_types`: presentation,
then for EVERY slide both the slide part and a notesSlide part (whether
or not it exists), then layout and master. -/
def generate_content_types_overrides (slide_count : Nat) : List String :=
  "/ppt/presentation.xml" ::
  ((List.range slide_count).bind (fun i =>
    ["/ppt/slides/slide" ++ toString (i + 1) ++ ".xml",
     "/ppt/notesSlides/notesSlide" ++ toString (i + 1) ++ ".xml"]))
  ++ ["/ppt/slideLayouts/slideLayout1.xml", "/ppt/slideMasters/slideMaster1.xml"]

/-- OPC target resolution from `_rels/.rels` (package root). -/
def resolveFromPackageRoot (t : String) : String := t

/-- OPC target resolution from `ppt/_rels/presentation.xml.rels` (no
`../` targets occur there). -/
def resolveFromPresentation (t : String) : String := "ppt/" ++ t

/-- OPC target resolution from `ppt/slides/_rels/slide{n}.xml.rels`. -/
def resolveFromSlides (t : String) : String :=
  if rStartsWith t "../" then "ppt/" ++ (⟨t.data.drop 3⟩ : String) else "ppt/slides/" ++ t

/-- Three all-vector slides with no notes (the claim's concrete
scenario). -/
def slides3 : List Slide :=
  [⟨1, "s1", SlideContent.Svg "<svg/>", none⟩,
   ⟨2, "s2", SlideContent.Svg "<svg/>", none⟩,
   ⟨3, "s3", SlideContent.Svg "<svg/>", none⟩]

/-- Claim C2 counterexample: the slide relationships part of slide 1
references `../media/image1.png` (and `../notesSlides/notesSlide1.xml`),
which resolve to parts that are NOT in the archive for an all-vector,
no-notes export — dangling relationship targets. -/
theorem c2_counterexample :
    ("rId1", "../media/image1.png") ∈ generate_slide_rels_entries 1 ∧
    resolveFromSlides "../media/image1.png" = "ppt/media/image1.png" ∧
    "ppt/slides/_rels/slide1.xml.rels" ∈ exportParts slides3 ∧
    ¬ "ppt/media/image1.png" ∈ exportParts slides3 ∧
    ("rId3", "../notesSlides/notesSlide1.xml") ∈ generate_slide_rels_entries 1 ∧
    resolveFromSlides "../notesSlides/notesSlide1.xml" = "ppt/notesSlides/notesSlide1.xml" ∧
    ¬ "ppt/notesSlides/notesSlide1.xml" ∈ exportParts slides3 := by
  refine ⟨by decide, by decide, by decide, by decide, by decide, by decide, by decide⟩

theorem strEq_of_data (s t : String) (h : s.data = t.data) : s = t := by
  cases s
  cases t
  exact congrArg String.mk (by simpa using h)

theorem slidePartsFrom_mem :
    ∀ (slides : List Slide) (k i : Nat), i < slides.length →
      ("ppt/slides/slide" ++ toString (k + i) ++ ".xml") ∈ slidePartsFrom k slides := by
  intro slides
  induction slides with
  | nil => intro k i hi; simp at hi
  | cons s rest ih =>
    intro k i hi
    cases i with
    | zero =>
      unfold slidePartsFrom
      apply List.mem_append.mpr
      left
      unfold perSlideParts
      apply List.mem_append.mpr
      left
      apply List.mem_append.mpr
      left
      simp
    | succ j =>
      have hj : j < rest.length := by simpa using hi
      have hm := ih (k + 1) j hj
      have harith : k + 1 + j = k + (j + 1) := by omega
      rw [harith] at hm
      unfold slidePartsFrom
      exact List.mem_append.mpr (Or.inr hm)

theorem resolvePres_slide (T : String) :
    resolveFromPresentation ("slides/slide" ++ T ++ ".xml") =
      "ppt/slides/slide" ++ T ++ ".xml" := by
  apply strEq_of_data
  show ("ppt/" ++ ("slides/slide" ++ T ++ ".xml")).data = _
  simp only [String.data_append, List.append_assoc]
  rw [← List.append_assoc "ppt/".data "slides/slide".data]
  have h : "ppt/".data ++ "slides/slide".data = "ppt/slides/slide".data := by decide
  rw [h]

theorem infixExtendLeft {α : Type} (s : List α) {l t : List α} (h : l <:+: t) :
    l <:+: s ++ t := by
  obtain ⟨u, v, huv⟩ := h
  exact ⟨s ++ u, v, by rw [← huv]; simp⟩

/-- Claim C2 as amended: every target of the root and presentation
relationship parts resolves to a zip entry, for every slide sequence;
the 3-vector-slide/no-notes export contains exactly 3 slide parts, one
layout, one master (and nothing else beyond the four fixed parts and the
per-slide rels parts), the content-types manifest lists presentation,
all slide parts, layout and master, and relationship IDs are unique
within each relationships part.  However — unlike the claim — each
slide's relationships part also carries an image and a notesSlide
target that exist only for raster/notes slides (dangling here, see the
counterexample), and the manifest lists notesSlide overrides for parts
that are never written. -/
theorem c2_amended (slides : List Slide) :
    (∀ t ∈ generate_root_rels_entries.map Prod.snd,
      resolveFromPackageRoot t ∈ exportParts slides) ∧
    (∀ t ∈ (generate_presentation_rels_entries slides.length).map Prod.snd,
      resolveFromPresentation t ∈ exportParts slides) ∧
    exportParts slides3 =
      ["[Content_Types].xml", "_rels/.rels", "ppt/presentation.xml",
       "ppt/_rels/presentation.xml.rels",
       "ppt/slides/slide1.xml", "ppt/slides/_rels/slide1.xml.rels",
       "ppt/slides/slide2.xml", "ppt/slides/_rels/slide2.xml.rels",
       "ppt/slides/slide3.xml", "ppt/slides/_rels/slide3.xml.rels",
       "ppt/slideLayouts/slideLayout1.xml", "ppt/slideMasters/slideMaster1.xml"] ∧
    generate_content_types_overrides 3 =
      ["/ppt/presentation.xml",
       "/ppt/slides/slide1.xml", "/ppt/notesSlides/notesSlide1.xml",
       "/ppt/slides/slide2.xml", "/ppt/notesSlides/notesSlide2.xml",
       "/ppt/slides/slide3.xml", "/ppt/notesSlides/notesSlide3.xml",
       "/ppt/slideLayouts/slideLayout1.xml", "/ppt/slideMasters/slideMaster1.xml"] ∧
    ((generate_root_rels_entries.map Prod.fst).Nodup ∧
     ((generate_presentation_rels_entries 3).map Prod.fst).Nodup ∧
     ((generate_slide_rels_entries 1).map Prod.fst).Nodup ∧
     ((generate_slide_rels_entries 2).map Prod.fst).Nodup ∧
     ((generate_slide_rels_entries 3).map Prod.fst).Nodup) := by
  refine ⟨?_, ?_, by decide, by decide, by decide, by decide, by decide, by decide, by decide⟩
  · intro t ht
    simp only [generate_root_rels_entries, List.map_cons, List.map_nil,
      List.mem_singleton] at ht
    subst ht
    unfold exportParts resolveFromPackageRoot
    apply List.mem_append.mpr
    left
    apply List.mem_append.mpr
    left
    decide
  · intro t ht
    simp only [generate_presentation_rels_entries, List.map_cons, List.mem_cons,
      List.map_map, List.mem_map, List.mem_range, Function.comp] at ht
    rcases ht with ht | ⟨i, hi, ht⟩
    · subst ht
      have hres : resolveFromPresentation "slideMasters/slideMaster1.xml" =
          "ppt/slideMasters/slideMaster1.xml" := by decide
      rw [hres]
      unfold exportParts
      apply List.mem_append.mpr
      right
      decide
    · rw [← ht]
      rw [resolvePres_slide]
      unfold exportParts
      apply List.mem_append.mpr
      left
      apply List.mem_append.mpr
      right
      have hm := slidePartsFrom_mem slides 1 i hi
      have harith : (1 : Nat) + i = i + 1 := by omega
      rw [harith] at hm
      exact hm

/-- Witness for C2: the universal resolution property applied to the
root-relationships target and to slide 1's presentation-relationships
target in the concrete 3-slide export. -/
theorem c2_witness :
    resolveFromPackageRoot "ppt/presentation.xml" ∈ exportParts slides3 ∧
    resolveFromPresentation "slides/slide1.xml" ∈ exportParts slides3 :=
  ⟨(c2_amended slides3).1 "ppt/presentation.xml" (by decide),
   (c2_amended slides3).2.1 "slides/slide1.xml" (by decide)⟩

/-- Claim C6 as amended: the presentation part declares a canvas of
`(width × 9525) mod 2^32` by `(height × 9525) mod 2^32` native length
units (`u32` arithmetic); this equals `width × 9525 × height × 9525`
whenever neither product overflows — in particular 1280×720 yields
12192000 × 6858000.  The unqualified claim fails for configs whose
product overflows (see the counterexample). -/
theorem c6_amended (slide_count : Nat) (config : PptxConfig) :
    ((canvasTag config).data <:+: (generate_presentation slide_count config).data) ∧
    (config.width * 9525 < 4294967296 → config.height * 9525 < 4294967296 →
      presCanvas config = (config.width * 9525, config.height * 9525)) ∧
    presCanvas ⟨1280, 720, true, some "fade"⟩ = (12192000, 6858000) := by
  refine ⟨?_, ?_, by decide⟩
  · unfold generate_presentation
    simp only [String.data_append, List.append_assoc]
    apply infixExtendLeft
    apply infixExtendLeft
    apply infixExtendLeft
    exact ⟨[], ("\n  <p:notesSz cx=\"6858000\" cy=\"9144000\"/>\n</p:presentation>" :
      String).data, by simp⟩
  · intro hw hh
    unfold presCanvas u32mul
    rw [Nat.mod_eq_of_lt hw, Nat.mod_eq_of_lt hh]

/-- A config whose width × 9525 exceeds `u32::MAX`. -/
def bigConfig : PptxConfig := ⟨450916, 720, false, none⟩

/-- Claim C6 counterexample: at width 450916 the mathematical product is
4294974900, but the `u32` arithmetic wraps and the presentation document
declares `cx="7604"`. -/
theorem c6_counterexample :
    presCanvas bigConfig = (7604, 6858000) ∧
    bigConfig.width * 9525 = 4294974900 ∧
    (presCanvas bigConfig).1 ≠ bigConfig.width * 9525 ∧
    canvasTag bigConfig = "<p:sldSz cx=\"7604\" cy=\"6858000\"/>" := by
  refine ⟨by decide, by decide, by decide, by decide⟩

/-- Witness for C6: the amended theorem at the default 1280×720 config
with 3 slides. -/
theorem c6_witness :
    ((canvasTag ⟨1280, 720, true, some "fade"⟩).data <:+:
      (generate_presentation 3 ⟨1280, 720, true, some "fade"⟩).data) ∧
    presCanvas ⟨1280, 720, true, some "fade"⟩ = (1280 * 9525, 720 * 9525) ∧
    presCanvas ⟨1280, 720, true, some "fade"⟩ = (12192000, 6858000) := by
  have h := c6_amended 3 ⟨1280, 720, true, some "fade"⟩
  exact ⟨h.1, h.2.1 (by decide) (by decide), h.2.2⟩
